import Mathlib

/-!
Verification of the iLQR trajectory-optimization solver (`ilqr_solver.rs`).

The embedding models nalgebra's dynamically sized matrices (`DMatrix<f64>`,
`DVector<f64>`) as rational-valued matrices carrying their dimensions, and
models nalgebra's runtime dimension assertions (which panic in Rust) as an
`Except` error value, so that shape-mismatch panics and the
`expect("the matrix Quu is not invertible")` panic become observable outcomes.
`f64` arithmetic is modelled exactly over `ℚ`; the square root used by the
convergence test (`f64::sqrt`, and `DVector::norm`) has no exact rational
counterpart and is taken as an explicit function parameter `sq`.
-/

/-- A dynamically sized matrix: row-major data together with its dimensions,
modelling nalgebra's `DMatrix<f64>` (a `DVector` is a matrix with one column). -/
structure Mat where
  rows : Nat
  cols : Nat
  data : List ℚ
deriving DecidableEq

instance : Inhabited Mat := ⟨⟨0, 0, []⟩⟩

/-- Entry `(i, j)` of a matrix (0 outside the stored data). -/
def Mat.entry (A : Mat) (i j : Nat) : ℚ := A.data.getD (i * A.cols + j) 0

/-- Build an `r × c` matrix from an entry function. -/
def mkMat (r c : Nat) (g : Nat → Nat → ℚ) : Mat :=
  ⟨r, c, (List.range (r * c)).map (fun k => g (k / c) (k % c))⟩

/-- A matrix is well-formed when its data has exactly `rows * cols` entries. -/
def Mat.Wf (A : Mat) : Prop := A.data.length = A.rows * A.cols

@[simp] lemma rows_mkMat (r c : Nat) (g : Nat → Nat → ℚ) : (mkMat r c g).rows = r := rfl

@[simp] lemma cols_mkMat (r c : Nat) (g : Nat → Nat → ℚ) : (mkMat r c g).cols = c := rfl

@[simp] lemma data_length_mkMat (r c : Nat) (g : Nat → Nat → ℚ) :
    (mkMat r c g).data.length = r * c := by
  simp [mkMat]

lemma wf_mkMat (r c : Nat) (g : Nat → Nat → ℚ) : (mkMat r c g).Wf := by
  simp [Mat.Wf]

lemma entry_mkMat {r c i j : Nat} (g : Nat → Nat → ℚ) (hi : i < r) (hj : j < c) :
    (mkMat r c g).entry i j = g i j := by
  have hc : 0 < c := Nat.pos_of_ne_zero (by omega)
  have hidx : i * c + j < r * c := by
    calc i * c + j < i * c + c := by omega
    _ = (i + 1) * c := by ring
    _ ≤ r * c := Nat.mul_le_mul_right c (by omega)
  have hlen : i * c + j < ((List.range (r * c)).map
      (fun k => g (k / c) (k % c))).length := by
    simpa using hidx
  unfold Mat.entry mkMat
  rw [List.getD_eq_getElem _ _ hlen]
  simp only [List.getElem_map, List.getElem_range]
  have hdiv : (i * c + j) / c = i := by
    rw [Nat.add_comm, Nat.mul_comm, Nat.add_mul_div_left _ _ hc, Nat.div_eq_of_lt hj,
      Nat.zero_add]
  have hmod : (i * c + j) % c = j := by
    rw [Nat.add_comm, Nat.mul_comm, Nat.add_mul_mod_self_left, Nat.mod_eq_of_lt hj]
  rw [hdiv, hmod]

lemma mkMat_congr {r c : Nat} {g h : Nat → Nat → ℚ}
    (he : ∀ i < r, ∀ j < c, g i j = h i j) : mkMat r c g = mkMat r c h := by
  unfold mkMat
  refine congrArg (Mat.mk r c) ?_
  apply List.ext_getElem (by simp)
  intro k h1 h2
  simp only [List.getElem_map, List.getElem_range]
  have hk : k < r * c := by simpa using h1
  have hc : 0 < c := by
    rcases Nat.eq_zero_or_pos c with h0 | h0
    · subst h0; simp at hk
    · exact h0
  exact he _ (Nat.div_lt_of_lt_mul (by rwa [Nat.mul_comm] at hk)) _ (Nat.mod_lt _ hc)

/-- Rebuilding a well-formed matrix from its own entries gives it back. -/
lemma mkMat_entry_self {A : Mat} (h : A.Wf) : mkMat A.rows A.cols A.entry = A := by
  obtain ⟨r, c, d⟩ := A
  have hd : d.length = r * c := h
  unfold mkMat
  refine congrArg (Mat.mk r c) ?_
  apply List.ext_getElem
  · simpa using hd.symm
  · intro k h1 h2
    simp only [List.getElem_map, List.getElem_range]
    have hk : k < r * c := by simpa using h1
    have hc : 0 < c := by
      rcases Nat.eq_zero_or_pos c with h0 | h0
      · subst h0; simp at hk
      · exact h0
    have hidx : k / c * c + k % c = k := by
      rw [Nat.mul_comm (k / c) c]; exact Nat.div_add_mod k c
    show d.getD (k / c * c + k % c) 0 = d[k]
    rw [hidx, List.getD_eq_getElem _ _ (by omega)]

/-- Sum of `g 0 + g 1 + ... + g (n-1)`. -/
def sumR : Nat → (Nat → ℚ) → ℚ
  | 0, _ => 0
  | n + 1, g => sumR n g + g n

lemma sumR_congr {n : Nat} {g h : Nat → ℚ} (he : ∀ k < n, g k = h k) :
    sumR n g = sumR n h := by
  induction n with
  | zero => rfl
  | succ n ih =>
    simp only [sumR]
    rw [ih (fun k hk => he k (by omega)), he n (by omega)]

lemma sumR_zero_fn (n : Nat) : sumR n (fun _ => 0) = 0 := by
  induction n with
  | zero => rfl
  | succ n ih => simp [sumR, ih]

lemma sumR_eq_zero {n : Nat} {g : Nat → ℚ} (he : ∀ k < n, g k = 0) : sumR n g = 0 := by
  rw [sumR_congr he, sumR_zero_fn]

/-- Transpose, nalgebra `Matrix::transpose`. -/
def Mat.transpose (A : Mat) : Mat := mkMat A.cols A.rows (fun i j => A.entry j i)

/-- Unchecked matrix product (the dimension check lives in `matMul`). -/
def mmulP (A B : Mat) : Mat :=
  mkMat A.rows B.cols (fun i j => sumR A.cols (fun k => A.entry i k * B.entry k j))

/-- Unchecked matrix sum (the dimension check lives in `matAdd`). -/
def maddP (A B : Mat) : Mat :=
  mkMat A.rows A.cols (fun i j => A.entry i j + B.entry i j)

/-- Unchecked matrix difference (the dimension check lives in `matSub`). -/
def msubP (A B : Mat) : Mat :=
  mkMat A.rows A.cols (fun i j => A.entry i j - B.entry i j)

/-- Matrix negation, nalgebra unary `-`. -/
def mnegP (A : Mat) : Mat := mkMat A.rows A.cols (fun i j => -A.entry i j)

/-- The zero matrix, nalgebra `DMatrix::zeros` / `DVector::zeros`. -/
def zeroM (r c : Nat) : Mat := mkMat r c (fun _ _ => 0)

/-- A column vector holding the given entries, with `(colVec v).data = v`
matching `DVector::from` / `as_slice`. -/
def colVec (v : List ℚ) : Mat := ⟨v.length, 1, v⟩

@[simp] lemma rows_transpose (A : Mat) : A.transpose.rows = A.cols := rfl
@[simp] lemma cols_transpose (A : Mat) : A.transpose.cols = A.rows := rfl
@[simp] lemma rows_mmulP (A B : Mat) : (mmulP A B).rows = A.rows := rfl
@[simp] lemma cols_mmulP (A B : Mat) : (mmulP A B).cols = B.cols := rfl
@[simp] lemma rows_maddP (A B : Mat) : (maddP A B).rows = A.rows := rfl
@[simp] lemma cols_maddP (A B : Mat) : (maddP A B).cols = A.cols := rfl
@[simp] lemma rows_msubP (A B : Mat) : (msubP A B).rows = A.rows := rfl
@[simp] lemma cols_msubP (A B : Mat) : (msubP A B).cols = A.cols := rfl
@[simp] lemma rows_mnegP (A : Mat) : (mnegP A).rows = A.rows := rfl
@[simp] lemma cols_mnegP (A : Mat) : (mnegP A).cols = A.cols := rfl
@[simp] lemma rows_zeroM (r c : Nat) : (zeroM r c).rows = r := rfl
@[simp] lemma cols_zeroM (r c : Nat) : (zeroM r c).cols = c := rfl
@[simp] lemma rows_colVec (v : List ℚ) : (colVec v).rows = v.length := rfl
@[simp] lemma cols_colVec (v : List ℚ) : (colVec v).cols = 1 := rfl
@[simp] lemma data_colVec (v : List ℚ) : (colVec v).data = v := rfl

lemma wf_colVec (v : List ℚ) : (colVec v).Wf := by simp [Mat.Wf, colVec]

/-- Every entry of the zero matrix is 0, even out of range. -/
lemma entry_zeroM (r c i j : Nat) : (zeroM r c).entry i j = 0 := by
  unfold zeroM mkMat Mat.entry
  by_cases h : i * c + j < r * c
  · rw [List.getD_eq_getElem _ _ (by simpa using h)]
    simp
  · rw [List.getD_eq_default _ _ (by simpa using h)]

lemma entry_colVec (v : List ℚ) (i : Nat) : (colVec v).entry i 0 = v.getD i 0 := by
  simp [colVec, Mat.entry]

/-- The runtime failures of the Rust code: nalgebra's dimension-assertion
panics, and explicit `expect`/`unwrap` panics with their messages. -/
inductive RtError where
  | dimMismatch : RtError
  | panicked : String → RtError
deriving DecidableEq

/-- Matrix product with nalgebra's runtime dimension assertion. -/
def matMul (A B : Mat) : Except RtError Mat :=
  if A.cols = B.rows then .ok (mmulP A B) else .error .dimMismatch

/-- Matrix sum with nalgebra's runtime dimension assertions. -/
def matAdd (A B : Mat) : Except RtError Mat :=
  if A.rows = B.rows ∧ A.cols = B.cols then .ok (maddP A B) else .error .dimMismatch

/-- Matrix difference with nalgebra's runtime dimension assertions. -/
def matSub (A B : Mat) : Except RtError Mat :=
  if A.rows = B.rows ∧ A.cols = B.cols then .ok (msubP A B) else .error .dimMismatch

/-- nalgebra `Matrix::dot`: componentwise product summed over all entries,
asserting that both operands have the same shape. -/
def dotM (A B : Mat) : Except RtError ℚ :=
  if A.rows = B.rows ∧ A.cols = B.cols then
    .ok (sumR A.rows (fun i => sumR A.cols (fun j => A.entry i j * B.entry i j)))
  else .error .dimMismatch

@[simp] lemma ok_bind {α β : Type} (a : α) (f : α → Except RtError β) :
    (Except.ok a >>= f) = f a := rfl

@[simp] lemma error_bind {α β : Type} (e : RtError) (f : α → Except RtError β) :
    ((Except.error e : Except RtError α) >>= f) = .error e := rfl

@[simp] lemma pure_eq_ok {α : Type} (a : α) : (pure a : Except RtError α) = .ok a := rfl

lemma bind_eq_ok {α β : Type} {x : Except RtError α} {f : α → Except RtError β}
    {b : β} : (x >>= f) = .ok b ↔ ∃ a, x = .ok a ∧ f a = .ok b := by
  cases x with
  | ok a => simp
  | error e => simp

lemma matMul_ok {A B : Mat} (h : A.cols = B.rows) : matMul A B = .ok (mmulP A B) := by
  simp [matMul, h]

lemma matAdd_ok {A B : Mat} (h1 : A.rows = B.rows) (h2 : A.cols = B.cols) :
    matAdd A B = .ok (maddP A B) := by
  simp [matAdd, h1, h2]

lemma matSub_ok {A B : Mat} (h1 : A.rows = B.rows) (h2 : A.cols = B.cols) :
    matSub A B = .ok (msubP A B) := by
  simp [matSub, h1, h2]

lemma dotM_ok {A B : Mat} (h1 : A.rows = B.rows) (h2 : A.cols = B.cols) :
    dotM A B = .ok (sumR A.rows (fun i => sumR A.cols (fun j => A.entry i j * B.entry i j))) := by
  simp [dotM, h1, h2]

lemma matMul_eq_ok {A B C : Mat} (h : matMul A B = .ok C) :
    A.cols = B.rows ∧ C = mmulP A B := by
  by_cases hc : A.cols = B.rows
  · rw [matMul_ok hc] at h
    exact ⟨hc, (Except.ok.injEq _ _ ▸ h).symm⟩
  · simp [matMul, hc] at h

lemma matAdd_eq_ok {A B C : Mat} (h : matAdd A B = .ok C) :
    A.rows = B.rows ∧ A.cols = B.cols ∧ C = maddP A B := by
  by_cases hc : A.rows = B.rows ∧ A.cols = B.cols
  · rw [matAdd_ok hc.1 hc.2] at h
    exact ⟨hc.1, hc.2, (Except.ok.injEq _ _ ▸ h).symm⟩
  · simp [matAdd, hc] at h

lemma matSub_eq_ok {A B C : Mat} (h : matSub A B = .ok C) :
    A.rows = B.rows ∧ A.cols = B.cols ∧ C = msubP A B := by
  by_cases hc : A.rows = B.rows ∧ A.cols = B.cols
  · rw [matSub_ok hc.1 hc.2] at h
    exact ⟨hc.1, hc.2, (Except.ok.injEq _ _ ▸ h).symm⟩
  · simp [matSub, hc] at h

/-- A matrix whose in-range entries all vanish is the zero matrix. -/
lemma mkMat_eq_zeroM {r c : Nat} {g : Nat → Nat → ℚ} (h : ∀ i < r, ∀ j < c, g i j = 0) :
    mkMat r c g = zeroM r c := mkMat_congr h

lemma mmulP_zero_left (r c : Nat) (B : Mat) : mmulP (zeroM r c) B = zeroM r B.cols := by
  unfold mmulP
  simp only [rows_zeroM, cols_zeroM]
  exact mkMat_eq_zeroM (fun i _ j _ =>
    sumR_eq_zero (fun k _ => by rw [entry_zeroM, zero_mul]))

lemma mmulP_zero_right (A : Mat) (r c : Nat) : mmulP A (zeroM r c) = zeroM A.rows c := by
  unfold mmulP
  simp only [rows_zeroM, cols_zeroM]
  exact mkMat_eq_zeroM (fun i _ j _ =>
    sumR_eq_zero (fun k _ => by rw [entry_zeroM, mul_zero]))

lemma maddP_zero_zero (r c r' c' : Nat) : maddP (zeroM r c) (zeroM r' c') = zeroM r c := by
  unfold maddP
  simp only [rows_zeroM, cols_zeroM]
  exact mkMat_eq_zeroM (fun i _ j _ => by rw [entry_zeroM, entry_zeroM, add_zero])

lemma maddP_zero_right {A : Mat} (h : A.Wf) (r c : Nat) : maddP A (zeroM r c) = A := by
  unfold maddP
  calc mkMat A.rows A.cols (fun i j => A.entry i j + (zeroM r c).entry i j)
      = mkMat A.rows A.cols A.entry := by
        apply mkMat_congr
        intro i _ j _
        rw [entry_zeroM, add_zero]
    _ = A := mkMat_entry_self h

lemma transpose_zeroM (r c : Nat) : (zeroM r c).transpose = zeroM c r := by
  unfold Mat.transpose
  simp only [rows_zeroM, cols_zeroM]
  exact mkMat_eq_zeroM (fun i _ j _ => entry_zeroM _ _ _ _)

/-- Index of the first row at or below `start` with a nonzero entry in
column `col` (the pivot search of Gaussian elimination). -/
def pivotSearch (rows : List (List ℚ)) (col start : Nat) : Option Nat :=
  ((List.range rows.length).drop start).find? (fun i => decide ((rows.getD i []).getD col 0 ≠ 0))

/-- Swap two rows of the augmented matrix. -/
def swapRowsL (M : List (List ℚ)) (i j : Nat) : List (List ℚ) :=
  let ri := M.getD i []
  let rj := M.getD j []
  (M.set i rj).set j ri

/-- One Gauss-Jordan elimination step on column `col` of the augmented
matrix: pick a pivot, normalize the pivot row, and clear the column in all
other rows.  `none` when the column has no usable pivot, i.e. the matrix is
singular. -/
def elimStep (M : List (List ℚ)) (col : Nat) : Option (List (List ℚ)) :=
  match pivotSearch M col col with
  | none => none
  | some r =>
    let M1 := swapRowsL M col r
    let prow := M1.getD col []
    let pv := prow.getD col 0
    let prow2 := prow.map (fun q => q / pv)
    let M2 := M1.set col prow2
    some ((List.range M2.length).map (fun i =>
      if i = col then prow2
      else
        let row := M2.getD i []
        let factor := row.getD col 0
        (List.range row.length).map (fun j => row.getD j 0 - factor * prow2.getD j 0)))

/-- The matrix `A` augmented with the identity, the starting point of
Gauss-Jordan elimination. -/
def gaussAug (A : Mat) : List (List ℚ) :=
  (List.range A.rows).map (fun i =>
    ((List.range A.rows).map (fun j => A.entry i j)) ++
      ((List.range A.rows).map (fun j => if i = j then (1 : ℚ) else 0)))

/-- Matrix inverse by Gauss-Jordan elimination over `ℚ`, modelling nalgebra's
`try_inverse` in exact arithmetic: `none` exactly on singular input (the
inverse of an invertible matrix being unique, the elimination's result is the
same matrix nalgebra's LU decomposition computes). -/
def gaussInv (A : Mat) : Option Mat :=
  match (List.range A.rows).foldl (fun acc col => acc.bind (fun M => elimStep M col))
      (some (gaussAug A)) with
  | none => none
  | some M => some (mkMat A.rows A.rows (fun i j => (M.getD i []).getD (A.rows + j) 0))

lemma gaussInv_shape {A M : Mat} (h : gaussInv A = some M) :
    M.rows = A.rows ∧ M.cols = A.rows := by
  unfold gaussInv at h
  split at h
  · exact absurd h (by simp)
  · simp only [Option.some.injEq] at h
    subst h
    exact ⟨rfl, rfl⟩

example : gaussInv (mkMat 1 1 (fun _ _ => 2)) = some (mkMat 1 1 (fun _ _ => 1/2)) := by
  with_unfolding_all decide
example : gaussInv (mkMat 1 1 (fun _ _ => 0)) = none := by with_unfolding_all decide
example : gaussInv (mkMat 2 2 (fun i j => if i = j then 1 else 0)) =
    some (mkMat 2 2 (fun i j => if i = j then 1 else 0)) := by with_unfolding_all decide
example : gaussInv (mkMat 2 2 (fun i j => if i = j then 2 else 1)) =
    some (mkMat 2 2 (fun i j => if i = j then 2/3 else -(1/3))) := by
  with_unfolding_all decide

/-- Left fold of a fallible step over a list: the shape Rust `for` loops with
early-panic take in the embedding. -/
def foldE {σ α : Type} (g : σ → α → Except RtError σ) : σ → List α → Except RtError σ
  | s, [] => .ok s
  | s, a :: as => g s a >>= fun s' => foldE g s' as

/-- Fallible map, keeping the order of effects of the Rust loops. -/
def mapE {α β : Type} (g : α → Except RtError β) : List α → Except RtError (List β)
  | [] => .ok []
  | a :: as => g a >>= fun b => mapE g as >>= fun bs => .ok (b :: bs)

@[simp] lemma foldE_nil {σ α : Type} (g : σ → α → Except RtError σ) (s : σ) :
    foldE g s [] = .ok s := rfl

@[simp] lemma foldE_cons {σ α : Type} (g : σ → α → Except RtError σ) (s : σ) (a : α)
    (as : List α) : foldE g s (a :: as) = g s a >>= fun s' => foldE g s' as := rfl

lemma foldE_append {σ α : Type} (g : σ → α → Except RtError σ) (s : σ) (l₁ l₂ : List α) :
    foldE g s (l₁ ++ l₂) = foldE g s l₁ >>= fun s' => foldE g s' l₂ := by
  induction l₁ generalizing s with
  | nil => simp
  | cons a as ih =>
    simp only [List.cons_append, foldE_cons]
    cases g s a with
    | ok s' => simpa using ih s'
    | error e => simp

lemma foldE_ok_inv {σ α : Type} {g : σ → α → Except RtError σ} {P : σ → Prop}
    {l : List α} {s sF : σ}
    (hstep : ∀ a ∈ l, ∀ t t', P t → g t a = .ok t' → P t')
    (h0 : P s) (h : foldE g s l = .ok sF) : P sF := by
  induction l generalizing s with
  | nil =>
    have : s = sF := by simpa [foldE] using h
    exact this ▸ h0
  | cons a as ih =>
    rw [foldE_cons] at h
    cases hg : g s a with
    | ok s' =>
      rw [hg, ok_bind] at h
      exact ih (fun b hb => hstep b (List.mem_cons_of_mem _ hb))
        (hstep a (List.mem_cons_self _ _) s s' h0 hg) h
    | error e => rw [hg] at h; simp at h

lemma foldE_total {σ α : Type} {g : σ → α → Except RtError σ} {P : σ → Prop}
    {l : List α} {s : σ}
    (hstep : ∀ a ∈ l, ∀ t, P t → ∃ t', g t a = .ok t' ∧ P t')
    (h0 : P s) : ∃ sF, foldE g s l = .ok sF ∧ P sF := by
  induction l generalizing s with
  | nil => exact ⟨s, rfl, h0⟩
  | cons a as ih =>
    obtain ⟨s', hg, hP⟩ := hstep a (List.mem_cons_self _ _) s h0
    obtain ⟨sF, hF, hPF⟩ := ih (fun b hb => hstep b (List.mem_cons_of_mem _ hb)) hP
    exact ⟨sF, by rw [foldE_cons, hg, ok_bind, hF], hPF⟩

lemma foldE_no_dim {σ α : Type} {g : σ → α → Except RtError σ} {P : σ → Prop}
    {l : List α} {s : σ}
    (hstep : ∀ a ∈ l, ∀ t, P t →
      g t a ≠ .error .dimMismatch ∧ ∀ t', g t a = .ok t' → P t')
    (h0 : P s) : foldE g s l ≠ .error .dimMismatch := by
  induction l generalizing s with
  | nil => simp
  | cons a as ih =>
    rw [foldE_cons]
    cases hg : g s a with
    | ok s' =>
      rw [ok_bind]
      exact ih (fun b hb => hstep b (List.mem_cons_of_mem _ hb))
        ((hstep a (List.mem_cons_self _ _) s h0).2 s' hg)
    | error e =>
      rw [error_bind]
      intro hcontra
      obtain ⟨hne, _⟩ := hstep a (List.mem_cons_self _ _) s h0
      rw [hg] at hne
      exact hne (by injection hcontra with h'; rw [h'])
  
lemma foldE_congr {σ α : Type} {g₁ g₂ : σ → α → Except RtError σ} {P : σ → Prop}
    {l : List α} {s : σ}
    (hstep : ∀ a ∈ l, ∀ t, P t → g₁ t a = g₂ t a ∧ ∀ t', g₁ t a = .ok t' → P t')
    (h0 : P s) : foldE g₁ s l = foldE g₂ s l := by
  induction l generalizing s with
  | nil => rfl
  | cons a as ih =>
    obtain ⟨heq, hpres⟩ := hstep a (List.mem_cons_self _ _) s h0
    rw [foldE_cons, foldE_cons, ← heq]
    cases hg : g₁ s a with
    | ok s' =>
      rw [ok_bind, ok_bind]
      exact ih (fun b hb => hstep b (List.mem_cons_of_mem _ hb)) (hpres s' hg)
    | error e => simp

lemma mapE_ok_of_all {α β : Type} {g : α → Except RtError β} {h : α → β} {l : List α}
    (hs : ∀ a ∈ l, g a = .ok (h a)) : mapE g l = .ok (l.map h) := by
  induction l with
  | nil => rfl
  | cons a as ih =>
    rw [mapE, hs a (List.mem_cons_self _ _), ok_bind,
      ih (fun b hb => hs b (List.mem_cons_of_mem _ hb)), ok_bind]
    rfl

lemma getD_set_self {α : Type} (l : List α) (i : Nat) (a d : α) (h : i < l.length) :
    (l.set i a).getD i d = a := by
  induction l generalizing i with
  | nil => simp at h
  | cons x xs ih =>
    cases i with
    | zero => rfl
    | succ n => exact ih n (by simpa using h)

lemma getD_set_ne {α : Type} (l : List α) (i j : Nat) (a d : α) (h : i ≠ j) :
    (l.set i a).getD j d = l.getD j d := by
  induction l generalizing i j with
  | nil => simp [List.set]
  | cons x xs ih =>
    cases i with
    | zero =>
      cases j with
      | zero => exact absurd rfl h
      | succ m => rfl
    | succ n =>
      cases j with
      | zero => rfl
      | succ m => exact ih n m (by omega)

lemma getD_replicate_lt {α : Type} (n i : Nat) (a d : α) (h : i < n) :
    (List.replicate n a).getD i d = a := by
  induction n generalizing i with
  | zero => omega
  | succ m ih =>
    cases i with
    | zero => rfl
    | succ k => exact ih k (by omega)

lemma mem_set_cases {α : Type} {l : List α} {i : Nat} {a b : α} (h : b ∈ l.set i a) :
    b = a ∨ b ∈ l := by
  induction l generalizing i with
  | nil => simp [List.set] at h
  | cons x xs ih =>
    cases i with
    | zero =>
      rcases List.mem_cons.mp h with h' | h'
      · exact Or.inl h'
      · exact Or.inr (List.mem_cons_of_mem _ h')
    | succ n =>
      rcases List.mem_cons.mp h with h' | h'
      · exact Or.inr (h' ▸ List.mem_cons_self _ _)
      · rcases ih h' with h'' | h''
        · exact Or.inl h''
        · exact Or.inr (List.mem_cons_of_mem _ h'')

lemma list_ext_getD {α : Type} {l₁ l₂ : List α} (d : α) (hl : l₁.length = l₂.length)
    (he : ∀ i < l₁.length, l₁.getD i d = l₂.getD i d) : l₁ = l₂ := by
  apply List.ext_getElem hl
  intro i h1 h2
  have := he i h1
  rwa [List.getD_eq_getElem _ _ h1, List.getD_eq_getElem _ _ h2] at this

/-- A dynamics function: next state from current state and control, both
passed as slices (`&[f64]`), as in the Rust signature
`impl Fn(&[f64], &[f64]) -> DVector<f64>`. -/
abbrev Dyn := List ℚ → List ℚ → List ℚ

/-- `const EPSILON: f64 = 1e-5`. -/
def EPSILON : ℚ := 1 / 100000

/-- The solver configuration, `struct ILQRSolver` of `ilqr_solver.rs`:
state dimension, control dimension and the three cost matrices. -/
structure ILQRSolver where
  state_dim : Nat
  control_dim : Nat
  Q : Mat
  Qf : Mat
  R : Mat
deriving DecidableEq

/-- `ILQRSolver::new`. -/
def ILQRSolver.new (state_dim control_dim : Nat) (Q Qf R : Mat) : ILQRSolver :=
  ⟨state_dim, control_dim, Q, Qf, R⟩

/-- `ILQRSolver::jacobians`: central finite differences.  For each state
dimension `i` the code perturbs `x[i]` by `±EPSILON`, evaluates `f` at both
points and stores `(f(x+εe_i,u) - f(x-εe_i,u)) / (2ε)` as column `i` of `A`;
symmetrically for `B` by perturbing `u`.  The vector subtraction and
`set_column` assert that `f`'s output has `state_dim` entries. -/
def ILQRSolver.jacobians (c : ILQRSolver) (f : Dyn) (x u : List ℚ) :
    Except RtError (Mat × Mat) := do
  let colsA ← mapE (fun i => do
      let xpdx := x.set i (x.getD i 0 + EPSILON)
      let xmdx := x.set i (x.getD i 0 - EPSILON)
      let f_xpdx := f xpdx u
      let f_xmdx := f xmdx u
      if f_xpdx.length = c.state_dim ∧ f_xmdx.length = c.state_dim then
        Except.ok ((List.range c.state_dim).map
          (fun r => (f_xpdx.getD r 0 - f_xmdx.getD r 0) / (2 * EPSILON)))
      else Except.error RtError.dimMismatch)
    (List.range c.state_dim)
  let colsB ← mapE (fun i => do
      let updu := u.set i (u.getD i 0 + EPSILON)
      let umdu := u.set i (u.getD i 0 - EPSILON)
      let f_updu := f x updu
      let f_umdu := f x umdu
      if f_updu.length = c.state_dim ∧ f_umdu.length = c.state_dim then
        Except.ok ((List.range c.state_dim).map
          (fun r => (f_updu.getD r 0 - f_umdu.getD r 0) / (2 * EPSILON)))
      else Except.error RtError.dimMismatch)
    (List.range c.control_dim)
  pure (mkMat c.state_dim c.state_dim (fun r i => (colsA.getD i []).getD r 0),
    mkMat c.state_dim c.control_dim (fun r i => (colsB.getD i []).getD r 0))

/-- The list of `(state, control)` argument pairs at which
`ILQRSolver::jacobians` evaluates the dynamics, in evaluation order: two
probes per state dimension, then two probes per control dimension. -/
def ILQRSolver.jacobiansTrace (c : ILQRSolver) (x u : List ℚ) :
    List (List ℚ × List ℚ) :=
  ((List.range c.state_dim).map (fun i =>
    [(x.set i (x.getD i 0 + EPSILON), u), (x.set i (x.getD i 0 - EPSILON), u)])).flatten
  ++ ((List.range c.control_dim).map (fun i =>
    [(x, u.set i (u.getD i 0 + EPSILON)), (x, u.set i (u.getD i 0 - EPSILON))])).flatten

/-- `ILQRSolver::forward`: roll the controls out through the dynamics from
`x`, pushing each new state and accumulating
`(x_next - target)ᵀ·Q·(x_next - target) + uᵀ·R·u` per step (both quadratic
forms written exactly as the Rust code's `dot` expressions), then add the
terminal cost `(x_T - target)ᵀ·Qf·(x_T - target)`. -/
def ILQRSolver.forward (c : ILQRSolver) (x : Mat) (us : List Mat) (target : Mat)
    (dynamics : Dyn) : Except RtError (List Mat × ℚ) := do
  let stF ← foldE (fun st u => do
      let x' := colVec (dynamics st.1.data u.data)
      let delta ← matSub x' target
      let dtQ ← matMul delta.transpose c.Q
      let q1 ← dotM dtQ delta.transpose
      let utR ← matMul u.transpose c.R
      let q2 ← dotM utR u
      Except.ok (x', st.2.1 ++ [x'], st.2.2 + (q1 + q2)))
    (x, [x], (0 : ℚ)) us
  let delta ← matSub stF.1 target
  let dtQf ← matMul delta.transpose c.Qf
  let qf ← dotM dtQf delta.transpose
  pure (stF.2.1, stF.2.2 + qf)

/-- `Quu.try_inverse().expect("the matrix Quu is not invertible")`:
nalgebra's `try_inverse` asserts squareness and returns `None` on a singular
matrix; the `expect` turns `None` into a panic with that message. -/
def tryInverseExpect (Quu : Mat) : Except RtError Mat :=
  if Quu.rows = Quu.cols then
    match gaussInv Quu with
    | some Mi => Except.ok Mi
    | none => Except.error (RtError.panicked "the matrix Quu is not invertible")
  else Except.error RtError.dimMismatch

lemma tryInverseExpect_eq_ok {Quu Mi : Mat} (h : tryInverseExpect Quu = .ok Mi) :
    Quu.rows = Quu.cols ∧ gaussInv Quu = some Mi := by
  unfold tryInverseExpect at h
  by_cases hsq : Quu.rows = Quu.cols
  · rw [if_pos hsq] at h
    rcases hg : gaussInv Quu with _ | Mj
    · rw [hg] at h
      exact absurd h (by simp)
    · rw [hg] at h
      exact ⟨hsq, congrArg some (Except.ok.inj h)⟩
  · rw [if_neg hsq] at h
    exact absurd h (by simp)

lemma tryInverseExpect_some {Quu Mi : Mat} (hsq : Quu.rows = Quu.cols)
    (h : gaussInv Quu = some Mi) : tryInverseExpect Quu = .ok Mi := by
  unfold tryInverseExpect
  rw [if_pos hsq, h]

/-- The common part of a backward-pass step after `Qu`: the quadratic
approximants `Qxx`, `Quu`, `Qux`, the inversion of `Quu`, the gains
`K = -Quu⁻¹·Qux`, `d = -Quu⁻¹·Qu`, and the updates of `s` and `S`. -/
def ILQRSolver.quuTail (c : ILQRSolver) (A B S Qx Qu : Mat) :
    Except RtError (Mat × Mat × Mat × Mat) := do
  let AtS ← matMul A.transpose S
  let AtSA ← matMul AtS A
  let Qxx ← matAdd c.Q AtSA
  let BtS ← matMul B.transpose S
  let BtSB ← matMul BtS B
  let Quu ← matAdd c.R BtSB
  let BtS2 ← matMul B.transpose S
  let Qux ← matMul BtS2 A
  let Quu_inv ← tryInverseExpect Quu
  let K ← matMul (mnegP Quu_inv) Qux
  let d ← matMul (mnegP Quu_inv) Qu
  let KtQuu ← matMul K.transpose Quu
  let KtQuud ← matMul KtQuu d
  let s1 ← matAdd Qx KtQuud
  let KtQu ← matMul K.transpose Qu
  let s2 ← matAdd s1 KtQu
  let Quxtd ← matMul Qux.transpose d
  let s3 ← matAdd s2 Quxtd
  let KtQuuK ← matMul KtQuu K
  let S1 ← matAdd Qxx KtQuuK
  let KtQux ← matMul K.transpose Qux
  let S2 ← matAdd S1 KtQux
  let QuxtK ← matMul Qux.transpose K
  let S3 ← matAdd S2 QuxtK
  pure (K, d, s3, S3)

/-- One step of `ILQRSolver::backward` exactly as the Rust code computes it:
in particular `Qu = R·u + sᵀ·B` (a row vector on the right summand) and
`Qx = Q·(x - target) + (sᵀ·A)ᵀ`. -/
def ILQRSolver.backwardStep (c : ILQRSolver) (dynamics : Dyn) (target x u s S : Mat) :
    Except RtError (Mat × Mat × Mat × Mat) := do
  let (A, B) ← c.jacobians dynamics x.data u.data
  let dx ← matSub x target
  let Qdx ← matMul c.Q dx
  let stA ← matMul s.transpose A
  let Qx ← matAdd Qdx stA.transpose
  let Ru ← matMul c.R u
  let stB ← matMul s.transpose B
  let Qu ← matAdd Ru stB
  c.quuTail A B S Qx Qu

/-- One backward-pass step as the specification writes it:
`Qu = R·us[t] + Bᵀ·s` (a column vector), everything else as in
`backwardStep`.  Second definition for the refinement claim C4, following
the specification's formulas. -/
def ILQRSolver.backwardStepSpec (c : ILQRSolver) (dynamics : Dyn) (target x u s S : Mat) :
    Except RtError (Mat × Mat × Mat × Mat) := do
  let (A, B) ← c.jacobians dynamics x.data u.data
  let dx ← matSub x target
  let Qdx ← matMul c.Q dx
  let stA ← matMul s.transpose A
  let Qx ← matAdd Qdx stA.transpose
  let Ru ← matMul c.R u
  let Bts ← matMul B.transpose s
  let Qu ← matAdd Ru Bts
  c.quuTail A B S Qx Qu

/-- `xs.last().unwrap()`: the last element, or the `unwrap` panic on an
empty trajectory. -/
def lastUnwrap (xs : List Mat) : Except RtError Mat :=
  match xs.getLast? with
  | some v => Except.ok v
  | none => Except.error (RtError.panicked "called Option::unwrap() on a None value")

/-- `ILQRSolver::backward`: allocate `Ks` and `ds` as `xs.len()` zero
matrices/vectors, start from `s = Qf·(xs.last().unwrap() - target)` and
`S = Qf`, and run the step for `i` from `xs.len() - 2` down to `0`,
storing each step's gains at index `i`. -/
def ILQRSolver.backward (c : ILQRSolver) (xs us : List Mat) (target : Mat)
    (dynamics : Dyn) : Except RtError (List Mat × List Mat) := do
  let Ks := List.replicate xs.length (zeroM c.control_dim c.state_dim)
  let ds := List.replicate xs.length (zeroM c.control_dim 1)
  let xT ← lastUnwrap xs
  let dT ← matSub xT target
  let s ← matMul c.Qf dT
  let stF ← foldE (fun st i => do
      let r ← c.backwardStep dynamics target (xs.getD i default) (us.getD i default)
        st.1 st.2.1
      Except.ok (r.2.2.1, r.2.2.2, st.2.2.1.set i r.1, st.2.2.2.set i r.2.1))
    (s, c.Qf, Ks, ds) ((List.range (xs.length - 1)).reverse)
  pure (stF.2.2.1, stF.2.2.2)

/-- The backward pass with every step computed by `backwardStepSpec`, i.e.
exactly as the specification's formulas read; same initialization and same
reverse iteration order.  Second definition for the refinement claim C4. -/
def ILQRSolver.backwardSpec (c : ILQRSolver) (xs us : List Mat) (target : Mat)
    (dynamics : Dyn) : Except RtError (List Mat × List Mat) := do
  let Ks := List.replicate xs.length (zeroM c.control_dim c.state_dim)
  let ds := List.replicate xs.length (zeroM c.control_dim 1)
  let xT ← lastUnwrap xs
  let dT ← matSub xT target
  let s ← matMul c.Qf dT
  let stF ← foldE (fun st i => do
      let r ← c.backwardStepSpec dynamics target (xs.getD i default) (us.getD i default)
        st.1 st.2.1
      Except.ok (r.2.2.1, r.2.2.2, st.2.2.1.set i r.1, st.2.2.2.set i r.2.1))
    (s, c.Qf, Ks, ds) ((List.range (xs.length - 1)).reverse)
  pure (stF.2.2.1, stF.2.2.2)

/-- The control-update loop inside `ILQRSolver::solve`: starting from
`x = x0`, for each `i` in `0..time_steps`, `du = Ks[i]·(x - xs[i]) + ds[i]`,
`us[i] += du`, `dus[i] = du`, `x = dynamics(x, us[i])`, `xs[i] = x`.
Returns the updated `(us, dus, xs)`. -/
def ILQRSolver.updatePhase (c : ILQRSolver) (dynamics : Dyn) (x0 : Mat)
    (Ks ds : List Mat) (time_steps : Nat) (us xs : List Mat) :
    Except RtError (List Mat × List Mat × List Mat) := do
  let stF ← foldE (fun st i => do
      let dx ← matSub st.1 (st.2.2.2.getD i default)
      let Kdx ← matMul (Ks.getD i default) dx
      let du ← matAdd Kdx (ds.getD i default)
      let usi ← matAdd (st.2.1.getD i default) du
      let us' := st.2.1.set i usi
      let dus' := st.2.2.1.set i du
      let x' := colVec (dynamics st.1.data usi.data)
      let xs' := st.2.2.2.set i x'
      Except.ok (x', us', dus', xs'))
    (x0, us, List.replicate time_steps (zeroM c.control_dim 1), xs)
    (List.range time_steps)
  pure (stF.2.1, stF.2.2.1, stF.2.2.2)

/-- `DVector::norm`: the Euclidean norm, i.e. `sq` applied to the sum of
squared entries, where `sq` stands for `f64::sqrt`. -/
def dvNorm (sq : ℚ → ℚ) (v : Mat) : ℚ := sq (v.data.foldl (fun a q => a + q * q) 0)

/-- The convergence metric of `ILQRSolver::solve`:
`dus.iter().map(|du| du.norm()).sum::<f64>().sqrt()` — the square root of the
sum of the per-timestep norms. -/
def iterNorm (sq : ℚ → ℚ) (dus : List Mat) : ℚ := sq ((dus.map (dvNorm sq)).sum)

/-- One iteration of the `solve` loop body: forward pass (the loss is bound
but unused), backward pass, then the control-update loop. -/
def ILQRSolver.solveIter (c : ILQRSolver) (x0 target : Mat) (dynamics : Dyn)
    (time_steps : Nat) (us : List Mat) :
    Except RtError (List Mat × List Mat × List Mat) := do
  let fwd ← c.forward x0 us target dynamics
  let bwd ← c.backward fwd.1 us target dynamics
  c.updatePhase dynamics x0 bwd.1 bwd.2 time_steps us fwd.1

/-- The iteration loop of `ILQRSolver::solve`, with the number of executed
iterations made observable in the result (the Rust loop runs the body up to
`max_iterations` times and `break`s when `norm < convergence_threshold`). -/
def ILQRSolver.solveLoop (c : ILQRSolver) (x0 target : Mat) (dynamics : Dyn)
    (time_steps : Nat) (sq : ℚ → ℚ) (convergence_threshold : ℚ) :
    Nat → List Mat → Except RtError (List Mat × Nat)
  | 0, us => .ok (us, 0)
  | k + 1, us => do
    let r ← c.solveIter x0 target dynamics time_steps us
    if iterNorm sq r.2.1 < convergence_threshold then
      Except.ok (r.1, 1)
    else do
      let rest ← c.solveLoop x0 target dynamics time_steps sq convergence_threshold k r.1
      Except.ok (rest.1, rest.2 + 1)

/-- `ILQRSolver::solve`: initialize `us` to `time_steps` zero controls, run
the iteration loop, and return the final control sequence.  `sq` models
`f64::sqrt` (used only by the convergence test). -/
def ILQRSolver.solve (c : ILQRSolver) (x0 target : Mat) (dynamics : Dyn)
    (time_steps max_iterations : Nat) (convergence_threshold : ℚ) (sq : ℚ → ℚ) :
    Except RtError (List Mat) := do
  let us := List.replicate time_steps (zeroM c.control_dim 1)
  let r ← c.solveLoop x0 target dynamics time_steps sq convergence_threshold
    max_iterations us
  pure r.1

lemma sumR_one (g : Nat → ℚ) : sumR 1 g = g 0 := by simp [sumR]

lemma entry_transpose {A : Mat} {i j : Nat} (hi : i < A.cols) (hj : j < A.rows) :
    A.transpose.entry i j = A.entry j i := by
  unfold Mat.transpose
  exact entry_mkMat _ hi hj

lemma entry_mmulP {A B : Mat} {i j : Nat} (hi : i < A.rows) (hj : j < B.cols) :
    (mmulP A B).entry i j = sumR A.cols (fun k => A.entry i k * B.entry k j) := by
  unfold mmulP
  exact entry_mkMat _ hi hj

lemma entry_maddP {A B : Mat} {i j : Nat} (hi : i < A.rows) (hj : j < A.cols) :
    (maddP A B).entry i j = A.entry i j + B.entry i j := by
  unfold maddP
  exact entry_mkMat _ hi hj

lemma entry_msubP {A B : Mat} {i j : Nat} (hi : i < A.rows) (hj : j < A.cols) :
    (msubP A B).entry i j = A.entry i j - B.entry i j := by
  unfold msubP
  exact entry_mkMat _ hi hj

/-- For one-dimensional controls the code's row-vector form of `Qu`,
`R·u + sᵀ·B` (a `1×1` row), has the same value as the specification's
column form `R·u + Bᵀ·s`. -/
lemma maddP_row_col_eq {R u s B : Mat} (hR : R.rows = 1) (hu : u.cols = 1)
    (hs : s.cols = 1) (hB : B.cols = 1) (hsr : B.rows = s.rows) :
    maddP (mmulP R u) (mmulP s.transpose B) = maddP (mmulP R u) (mmulP B.transpose s) := by
  unfold maddP
  simp only [rows_mmulP, cols_mmulP]
  apply mkMat_congr
  intro i hi j hj
  rw [hR] at hi
  rw [hu] at hj
  interval_cases i
  interval_cases j
  congr 1
  rw [entry_mmulP (by simp [hs]) (by simp [hB]),
    entry_mmulP (by simp [hB]) (by simp [hs])]
  simp only [cols_transpose]
  rw [hsr]
  apply sumR_congr
  intro k hk
  rw [entry_transpose (by simp [hs]) (by simpa using hk),
    entry_transpose (by simp [hB]) (by simpa [hsr] using hk)]
  exact mul_comm _ _

/-- The scalar value of the code's `(vᵀ·M).dot(vᵀ)` and `(uᵀ·R).dot(u)`
expressions: the quadratic form `vᵀ·M·v`. -/
def quadForm (M v : Mat) : ℚ :=
  sumR M.cols (fun j => sumR M.rows (fun k => v.entry k 0 * M.entry k j) * v.entry j 0)

instance {ε α : Type} [DecidableEq ε] [DecidableEq α] : DecidableEq (Except ε α) := fun x y =>
  match x, y with
  | .ok v, .ok w =>
    if h : v = w then isTrue (by rw [h]) else isFalse (fun q => h (Except.ok.inj q))
  | .error v, .error w =>
    if h : v = w then isTrue (by rw [h]) else isFalse (fun q => h (Except.error.inj q))
  | .ok _, .error _ => isFalse (fun q => Except.noConfusion q)
  | .error _, .ok _ => isFalse (fun q => Except.noConfusion q)

lemma getD_map_range {α : Type} {n i : Nat} (f : Nat → α) (d : α) (h : i < n) :
    ((List.range n).map f).getD i d = f i := by
  rw [List.getD_eq_getElem _ _ (by simpa using h)]
  simp

lemma foldE_singleton {σ α : Type} (g : σ → α → Except RtError σ) (s : σ) (a : α) :
    foldE g s [a] = g s a := by
  rw [foldE_cons]
  cases g s a with
  | ok t => rfl
  | error e => rfl

lemma mapE_eq_ok {α β : Type} {g : α → Except RtError β} {l : List α} {bs : List β}
    (da : α) (db : β) (h : mapE g l = .ok bs) :
    bs.length = l.length ∧ ∀ i < l.length, g (l.getD i da) = .ok (bs.getD i db) := by
  induction l generalizing bs with
  | nil =>
    have : bs = [] := by simpa [mapE] using h.symm
    subst this
    exact ⟨rfl, fun i hi => by simp at hi⟩
  | cons a as ih =>
    rw [mapE] at h
    cases hg : g a with
    | error e => rw [hg] at h; simp at h
    | ok b =>
      rw [hg, ok_bind] at h
      cases hm : mapE g as with
      | error e => rw [hm] at h; simp at h
      | ok cs =>
        rw [hm, ok_bind] at h
        have hbs : bs = b :: cs := by
          have := Except.ok.inj h
          exact this.symm
        subst hbs
        obtain ⟨hlen, hall⟩ := ih hm
        refine ⟨by simpa using hlen, ?_⟩
        intro i hi
        cases i with
        | zero => simpa using hg
        | succ k => exact hall k (by simpa using hi)

/-- The dynamics function returns state vectors of the right length whenever
it is probed at vectors of the right lengths. -/
def DynOK (c : ILQRSolver) (f : Dyn) : Prop :=
  ∀ a b : List ℚ, a.length = c.state_dim → b.length = c.control_dim →
    (f a b).length = c.state_dim

/-- A matrix is a length-`n` column vector. -/
def IsVec (n : Nat) (v : Mat) : Prop := v.rows = n ∧ v.cols = 1 ∧ v.data.length = n

lemma IsVec.wf {n : Nat} {v : Mat} (h : IsVec n v) : v.Wf := by
  obtain ⟨h1, h2, h3⟩ := h
  unfold Mat.Wf
  rw [h1, h2, h3, Nat.mul_one]

lemma isVec_colVec {n : Nat} {l : List ℚ} (h : l.length = n) : IsVec n (colVec l) :=
  ⟨h, rfl, h⟩

lemma isVec_zeroM (n : Nat) : IsVec n (zeroM n 1) := by
  refine ⟨rfl, rfl, ?_⟩
  simp [zeroM]

/-- Under in-range probe outputs, `jacobians` succeeds and returns exactly
the matrices of central-difference columns. -/
lemma jacobians_eq {c : ILQRSolver} {f : Dyn} {x u : List ℚ}
    (hf : DynOK c f) (hx : x.length = c.state_dim) (hu : u.length = c.control_dim) :
    c.jacobians f x u = .ok
      (mkMat c.state_dim c.state_dim (fun r i =>
        ((f (x.set i (x.getD i 0 + EPSILON)) u).getD r 0
          - (f (x.set i (x.getD i 0 - EPSILON)) u).getD r 0) / (2 * EPSILON)),
       mkMat c.state_dim c.control_dim (fun r i =>
        ((f x (u.set i (u.getD i 0 + EPSILON))).getD r 0
          - (f x (u.set i (u.getD i 0 - EPSILON))).getD r 0) / (2 * EPSILON))) := by
  unfold ILQRSolver.jacobians
  have hA : mapE (fun i => do
      let xpdx := x.set i (x.getD i 0 + EPSILON)
      let xmdx := x.set i (x.getD i 0 - EPSILON)
      let f_xpdx := f xpdx u
      let f_xmdx := f xmdx u
      if f_xpdx.length = c.state_dim ∧ f_xmdx.length = c.state_dim then
        Except.ok ((List.range c.state_dim).map
          (fun r => (f_xpdx.getD r 0 - f_xmdx.getD r 0) / (2 * EPSILON)))
      else Except.error RtError.dimMismatch)
      (List.range c.state_dim)
      = .ok ((List.range c.state_dim).map (fun i => (List.range c.state_dim).map
          (fun r => ((f (x.set i (x.getD i 0 + EPSILON)) u).getD r 0
            - (f (x.set i (x.getD i 0 - EPSILON)) u).getD r 0) / (2 * EPSILON)))) := by
    apply mapE_ok_of_all
    intro i _
    rw [if_pos]
    constructor
    · exact hf _ _ (by simp [hx]) hu
    · exact hf _ _ (by simp [hx]) hu
  have hB : mapE (fun i => do
      let updu := u.set i (u.getD i 0 + EPSILON)
      let umdu := u.set i (u.getD i 0 - EPSILON)
      let f_updu := f x updu
      let f_umdu := f x umdu
      if f_updu.length = c.state_dim ∧ f_umdu.length = c.state_dim then
        Except.ok ((List.range c.state_dim).map
          (fun r => (f_updu.getD r 0 - f_umdu.getD r 0) / (2 * EPSILON)))
      else Except.error RtError.dimMismatch)
      (List.range c.control_dim)
      = .ok ((List.range c.control_dim).map (fun i => (List.range c.state_dim).map
          (fun r => ((f x (u.set i (u.getD i 0 + EPSILON))).getD r 0
            - (f x (u.set i (u.getD i 0 - EPSILON))).getD r 0) / (2 * EPSILON)))) := by
    apply mapE_ok_of_all
    intro i _
    rw [if_pos]
    constructor
    · exact hf _ _ hx (by simp [hu])
    · exact hf _ _ hx (by simp [hu])
  rw [hA, ok_bind, hB, ok_bind, pure_eq_ok]
  congr 1
  refine Prod.ext ?_ ?_
  · dsimp only
    apply mkMat_congr
    intro r hr i hi
    rw [getD_map_range _ _ hi, getD_map_range _ _ hr]
  · dsimp only
    apply mkMat_congr
    intro r hr i hi
    rw [getD_map_range _ _ hi, getD_map_range _ _ hr]

lemma getD_range {n i : Nat} (h : i < n) (d : Nat) : (List.range n).getD i d = i := by
  rw [List.getD_eq_getElem _ _ (by simpa using h)]
  simp

lemma jacobians_ok_shapes {c : ILQRSolver} {f : Dyn} {x u : List ℚ} {p : Mat × Mat}
    (h : c.jacobians f x u = .ok p) :
    p.1.rows = c.state_dim ∧ p.1.cols = c.state_dim ∧
      p.2.rows = c.state_dim ∧ p.2.cols = c.control_dim := by
  unfold ILQRSolver.jacobians at h
  rcases bind_eq_ok.mp h with ⟨colsA, _, h⟩
  rcases bind_eq_ok.mp h with ⟨colsB, _, h⟩
  rw [pure_eq_ok] at h
  have hp := Except.ok.inj h
  rw [← hp]
  exact ⟨rfl, rfl, rfl, rfl⟩

/-- For the state-preserving no-op dynamics `f(x, u) = x`, whenever
`jacobians` succeeds its `B` matrix is zero: both control probes return the
unchanged state, so every central difference in `u` vanishes. -/
lemma jacobians_noop_B {c : ILQRSolver} {x u : List ℚ} {p : Mat × Mat}
    (h : c.jacobians (fun a _ => a) x u = .ok p) :
    p.2 = zeroM c.state_dim c.control_dim := by
  unfold ILQRSolver.jacobians at h
  rcases bind_eq_ok.mp h with ⟨colsA, _, h⟩
  rcases bind_eq_ok.mp h with ⟨colsB, hB, h⟩
  rw [pure_eq_ok] at h
  have hp := Except.ok.inj h
  rw [← hp]
  obtain ⟨hlen, hall⟩ := mapE_eq_ok 0 ([] : List ℚ) hB
  dsimp only
  apply mkMat_eq_zeroM
  intro r hr i hi
  have hgi : (if x.length = c.state_dim ∧ x.length = c.state_dim then
      Except.ok ((List.range c.state_dim).map
        (fun r => (x.getD r 0 - x.getD r 0) / (2 * EPSILON)))
      else Except.error RtError.dimMismatch) = Except.ok (colsB.getD i []) :=
    hall i (by simpa using hi)
  by_cases hc : x.length = c.state_dim ∧ x.length = c.state_dim
  · rw [if_pos hc] at hgi
    have hcol := Except.ok.inj hgi
    rw [← hcol, getD_map_range _ _ hr, sub_self, zero_div]
  · rw [if_neg hc] at hgi
    exact absurd hgi (by simp)

/-- Success-shape decomposition of `quuTail`: on success the gains are the
stated products of the pure operations, and the updated `s`, `S` keep the
shapes of `Qx` and `Q`. -/
lemma quuTail_ok {c : ILQRSolver} {A B S Qx Qu K d s' S' : Mat}
    (h : c.quuTail A B S Qx Qu = .ok (K, d, s', S')) :
    ∃ Quu_inv : Mat,
      gaussInv (maddP c.R (mmulP (mmulP B.transpose S) B)) = some Quu_inv ∧
      Quu_inv.rows = c.R.rows ∧ Quu_inv.cols = c.R.rows ∧
      K = mmulP (mnegP Quu_inv) (mmulP (mmulP B.transpose S) A) ∧
      d = mmulP (mnegP Quu_inv) Qu ∧
      s'.rows = Qx.rows ∧ s'.cols = Qx.cols ∧
      S'.rows = c.Q.rows ∧ S'.cols = c.Q.cols := by
  unfold ILQRSolver.quuTail at h
  rcases bind_eq_ok.mp h with ⟨BtS0, hBtS0, h⟩
  obtain ⟨_, rfl⟩ := matMul_eq_ok hBtS0
  rcases bind_eq_ok.mp h with ⟨AtSA, hAtSA, h⟩
  obtain ⟨_, rfl⟩ := matMul_eq_ok hAtSA
  rcases bind_eq_ok.mp h with ⟨Qxx, hQxx, h⟩
  obtain ⟨_, _, rfl⟩ := matAdd_eq_ok hQxx
  rcases bind_eq_ok.mp h with ⟨BtS, hBtS, h⟩
  obtain ⟨_, rfl⟩ := matMul_eq_ok hBtS
  rcases bind_eq_ok.mp h with ⟨BtSB, hBtSB, h⟩
  obtain ⟨_, rfl⟩ := matMul_eq_ok hBtSB
  rcases bind_eq_ok.mp h with ⟨Quu, hQuu, h⟩
  obtain ⟨_, _, rfl⟩ := matAdd_eq_ok hQuu
  rcases bind_eq_ok.mp h with ⟨BtS2, hBtS2, h⟩
  obtain ⟨_, rfl⟩ := matMul_eq_ok hBtS2
  rcases bind_eq_ok.mp h with ⟨Qux, hQux, h⟩
  obtain ⟨_, rfl⟩ := matMul_eq_ok hQux
  rcases bind_eq_ok.mp h with ⟨Mi, hQinv, h⟩
  obtain ⟨hsq, hg⟩ := tryInverseExpect_eq_ok hQinv
  obtain ⟨hir, hic⟩ := gaussInv_shape hg
  rcases bind_eq_ok.mp h with ⟨K0, hK0, h⟩
  obtain ⟨_, rfl⟩ := matMul_eq_ok hK0
  rcases bind_eq_ok.mp h with ⟨d0, hd0, h⟩
  obtain ⟨_, rfl⟩ := matMul_eq_ok hd0
  rcases bind_eq_ok.mp h with ⟨KtQuu, hKtQuu, h⟩
  rcases bind_eq_ok.mp h with ⟨KtQuud, hKtQuud, h⟩
  rcases bind_eq_ok.mp h with ⟨s1, hs1, h⟩
  rcases bind_eq_ok.mp h with ⟨KtQu, hKtQu, h⟩
  rcases bind_eq_ok.mp h with ⟨s2, hs2, h⟩
  rcases bind_eq_ok.mp h with ⟨Quxtd, hQuxtd, h⟩
  rcases bind_eq_ok.mp h with ⟨s3, hs3, h⟩
  rcases bind_eq_ok.mp h with ⟨KtQuuK, hKtQuuK, h⟩
  rcases bind_eq_ok.mp h with ⟨S1, hS1, h⟩
  rcases bind_eq_ok.mp h with ⟨KtQux, hKtQux, h⟩
  rcases bind_eq_ok.mp h with ⟨S2, hS2, h⟩
  rcases bind_eq_ok.mp h with ⟨QuxtK, hQuxtK, h⟩
  rcases bind_eq_ok.mp h with ⟨S3, hS3, h⟩
  rw [pure_eq_ok] at h
  have hfin := Except.ok.inj h
  have hK : K = mmulP (mnegP Mi) (mmulP (mmulP B.transpose S) A) :=
    (congrArg Prod.fst hfin).symm
  have hd : d = mmulP (mnegP Mi) Qu :=
    (congrArg (fun q => q.2.1) hfin).symm
  have hs'3 : s' = s3 := (congrArg (fun q => q.2.2.1) hfin).symm
  have hS'3 : S' = S3 := (congrArg (fun q => q.2.2.2) hfin).symm
  obtain ⟨_, _, hs3v⟩ := matAdd_eq_ok hs3
  obtain ⟨_, _, hs2v⟩ := matAdd_eq_ok hs2
  obtain ⟨_, _, hs1v⟩ := matAdd_eq_ok hs1
  obtain ⟨_, _, hS3v⟩ := matAdd_eq_ok hS3
  obtain ⟨_, _, hS2v⟩ := matAdd_eq_ok hS2
  obtain ⟨_, _, hS1v⟩ := matAdd_eq_ok hS1
  refine ⟨Mi, hg, by rw [hir]; simp, by rw [hic]; simp, hK, hd, ?_, ?_, ?_, ?_⟩
  · rw [hs'3, hs3v, hs2v, hs1v]; simp
  · rw [hs'3, hs3v, hs2v, hs1v]; simp
  · rw [hS'3, hS3v, hS2v, hS1v]; simp
  · rw [hS'3, hS3v, hS2v, hS1v]; simp

/-- The cost matrices have the dimensions the solver configuration
announces (the caller-side dimension contract of `ILQRSolver::new`). -/
def CfgShape (c : ILQRSolver) : Prop :=
  c.Q.rows = c.state_dim ∧ c.Q.cols = c.state_dim ∧
    c.Qf.rows = c.state_dim ∧ c.Qf.cols = c.state_dim ∧
    c.R.rows = c.control_dim ∧ c.R.cols = c.control_dim

lemma getD_mem {α : Type} {l : List α} {i : Nat} (d : α) (h : i < l.length) :
    l.getD i d ∈ l := by
  rw [List.getD_eq_getElem _ _ h]
  exact List.getElem_mem _

/-- Success decomposition of one code backward step: the Jacobians were
computed, `Quu` was inverted, the gains are the stated products, and the
updated `s`, `S` have the shapes of `Qx` and `Q`. -/
lemma backwardStep_ok {c : ILQRSolver} {f : Dyn} {target x u s S K d s' S' : Mat}
    (h : c.backwardStep f target x u s S = .ok (K, d, s', S')) :
    ∃ A B Quu_inv : Mat,
      c.jacobians f x.data u.data = .ok (A, B) ∧
      A.rows = c.state_dim ∧ A.cols = c.state_dim ∧
      B.rows = c.state_dim ∧ B.cols = c.control_dim ∧
      gaussInv (maddP c.R (mmulP (mmulP B.transpose S) B)) = some Quu_inv ∧
      Quu_inv.rows = c.R.rows ∧ Quu_inv.cols = c.R.rows ∧
      K = mmulP (mnegP Quu_inv) (mmulP (mmulP B.transpose S) A) ∧
      d = mmulP (mnegP Quu_inv) (maddP (mmulP c.R u) (mmulP s.transpose B)) ∧
      s'.rows = c.Q.rows ∧ s'.cols = x.cols ∧
      S'.rows = c.Q.rows ∧ S'.cols = c.Q.cols := by
  unfold ILQRSolver.backwardStep at h
  rcases bind_eq_ok.mp h with ⟨p, hp, h⟩
  obtain ⟨A, B⟩ := p
  obtain ⟨hA1, hA2, hB1, hB2⟩ := jacobians_ok_shapes hp
  rcases bind_eq_ok.mp h with ⟨dx, hdx, h⟩
  obtain ⟨_, _, rfl⟩ := matSub_eq_ok hdx
  rcases bind_eq_ok.mp h with ⟨Qdx, hQdx, h⟩
  obtain ⟨_, rfl⟩ := matMul_eq_ok hQdx
  rcases bind_eq_ok.mp h with ⟨stA, hstA, h⟩
  obtain ⟨_, rfl⟩ := matMul_eq_ok hstA
  rcases bind_eq_ok.mp h with ⟨Qx, hQx, h⟩
  obtain ⟨_, _, rfl⟩ := matAdd_eq_ok hQx
  rcases bind_eq_ok.mp h with ⟨Ru, hRu, h⟩
  obtain ⟨_, rfl⟩ := matMul_eq_ok hRu
  rcases bind_eq_ok.mp h with ⟨stB, hstB, h⟩
  obtain ⟨_, rfl⟩ := matMul_eq_ok hstB
  rcases bind_eq_ok.mp h with ⟨Qu, hQu, h⟩
  obtain ⟨_, _, rfl⟩ := matAdd_eq_ok hQu
  obtain ⟨Mi, hg, hir, hic, hK, hd, hs1, hs2, hS1, hS2⟩ := quuTail_ok h
  refine ⟨A, B, Mi, hp, hA1, hA2, hB1, hB2, hg, hir, hic, hK, hd, ?_, ?_, hS1, hS2⟩
  · rw [hs1]; simp
  · rw [hs2]; simp

/-- With a one-dimensional control space and dimensionally consistent
arguments, the code's backward step and the specification's backward step
are the same function of the value state: the only textual difference,
`Qu = R·u + sᵀ·B` against `Qu = R·u + Bᵀ·s`, is a `1×1` value equality. -/
lemma backwardStep_eq_spec {c : ILQRSolver} {f : Dyn} {target x u s S : Mat}
    (hm : c.control_dim = 1) (hcs : CfgShape c)
    (ht1 : target.rows = c.state_dim) (ht2 : target.cols = 1)
    (hx1 : x.rows = c.state_dim) (hx2 : x.cols = 1)
    (hu1 : u.rows = 1) (hu2 : u.cols = 1)
    (hs1 : s.rows = c.state_dim) (hs2 : s.cols = 1)
    (hS1 : S.rows = c.state_dim) (hS2 : S.cols = c.state_dim) :
    c.backwardStep f target x u s S = c.backwardStepSpec f target x u s S := by
  obtain ⟨hQ1, hQ2, hQf1, hQf2, hR1, hR2⟩ := hcs
  unfold ILQRSolver.backwardStep ILQRSolver.backwardStepSpec
  cases hj : c.jacobians f x.data u.data with
  | error e => rfl
  | ok p =>
    obtain ⟨A, B⟩ := p
    obtain ⟨hA1p, hA2p, hB1p, hB2p⟩ := jacobians_ok_shapes hj
    have hA1 : A.rows = c.state_dim := hA1p
    have hA2 : A.cols = c.state_dim := hA2p
    have hB1 : B.rows = c.state_dim := hB1p
    have hB2 : B.cols = c.control_dim := hB2p
    have e1 : matSub x target = .ok (msubP x target) :=
      matSub_ok (by rw [hx1, ht1]) (by rw [hx2, ht2])
    have e2 : matMul c.Q (msubP x target) = .ok (mmulP c.Q (msubP x target)) :=
      matMul_ok (by simp [hQ2, hx1])
    have e3 : matMul s.transpose A = .ok (mmulP s.transpose A) :=
      matMul_ok (by simp [hs1, hA1])
    have e4 : matAdd (mmulP c.Q (msubP x target)) (mmulP s.transpose A).transpose
        = .ok (maddP (mmulP c.Q (msubP x target)) (mmulP s.transpose A).transpose) :=
      matAdd_ok (by simp [hQ1, hA2]) (by simp [hx2, hs2])
    have e5 : matMul c.R u = .ok (mmulP c.R u) :=
      matMul_ok (by rw [hR2, hm, hu1])
    have e6 : matMul s.transpose B = .ok (mmulP s.transpose B) :=
      matMul_ok (by simp [hs1, hB1])
    have e7 : matAdd (mmulP c.R u) (mmulP s.transpose B)
        = .ok (maddP (mmulP c.R u) (mmulP s.transpose B)) :=
      matAdd_ok (by simp [hR1, hm, hs2]) (by simp [hu2, hB2, hm])
    have e8 : matMul B.transpose s = .ok (mmulP B.transpose s) :=
      matMul_ok (by simp [hB1, hs1])
    have e9 : matAdd (mmulP c.R u) (mmulP B.transpose s)
        = .ok (maddP (mmulP c.R u) (mmulP B.transpose s)) :=
      matAdd_ok (by simp [hR1, hm, hB2]) (by simp [hu2, hs2])
    simp only [ok_bind]
    rw [e1, ok_bind, e2, ok_bind, e3, ok_bind, e4, ok_bind, e5, ok_bind]
    rw [e6, ok_bind, e7, ok_bind]
    rw [e8, ok_bind, e2, ok_bind, ok_bind, e4, ok_bind, ok_bind]
    rw [ok_bind, e9, ok_bind]
    exact congrArg
      (c.quuTail A B S (maddP (mmulP c.Q (msubP x target)) (mmulP s.transpose A).transpose))
      (maddP_row_col_eq (by rw [hR1, hm]) hu2 hs2 (by rw [hB2, hm]) (by rw [hB1, hs1]))

lemma tryInverseExpect_none {Quu : Mat} (hsq : Quu.rows = Quu.cols)
    (h : gaussInv Quu = none) :
    tryInverseExpect Quu = .error (RtError.panicked "the matrix Quu is not invertible") := by
  unfold tryInverseExpect
  rw [if_pos hsq, h]

/-- With a one-dimensional control space and consistent shapes, the tail of a
backward step either succeeds or fails with the `Quu` inversion panic — never
with a dimension mismatch. -/
lemma quuTail_total {c : ILQRSolver} {A B S Qx Qu : Mat}
    (hcs : CfgShape c) (hm : c.control_dim = 1)
    (hA1 : A.rows = c.state_dim) (hA2 : A.cols = c.state_dim)
    (hB1 : B.rows = c.state_dim) (hB2 : B.cols = 1)
    (hS1 : S.rows = c.state_dim) (hS2 : S.cols = c.state_dim)
    (hQx1 : Qx.rows = c.state_dim) (hQx2 : Qx.cols = 1)
    (hQu1 : Qu.rows = 1) (hQu2 : Qu.cols = 1) :
    (∃ r, c.quuTail A B S Qx Qu = .ok r) ∨
      c.quuTail A B S Qx Qu = .error (RtError.panicked "the matrix Quu is not invertible") := by
  obtain ⟨hQ1, hQ2, hQf1, hQf2, hR1, hR2⟩ := hcs
  unfold ILQRSolver.quuTail
  have t1 : matMul A.transpose S = .ok (mmulP A.transpose S) :=
    matMul_ok (by simp [hA1, hS1])
  have t2 : matMul (mmulP A.transpose S) A = .ok (mmulP (mmulP A.transpose S) A) :=
    matMul_ok (by simp [hS2, hA1])
  have t3 : matAdd c.Q (mmulP (mmulP A.transpose S) A)
      = .ok (maddP c.Q (mmulP (mmulP A.transpose S) A)) :=
    matAdd_ok (by simp [hQ1, hA2]) (by simp [hQ2, hA2])
  have t4 : matMul B.transpose S = .ok (mmulP B.transpose S) :=
    matMul_ok (by simp [hB1, hS1])
  have t5 : matMul (mmulP B.transpose S) B = .ok (mmulP (mmulP B.transpose S) B) :=
    matMul_ok (by simp [hS2, hB1])
  have t6 : matAdd c.R (mmulP (mmulP B.transpose S) B)
      = .ok (maddP c.R (mmulP (mmulP B.transpose S) B)) :=
    matAdd_ok (by simp [hR1, hm, hB2]) (by simp [hR2, hm, hB2])
  have t8 : matMul (mmulP B.transpose S) A = .ok (mmulP (mmulP B.transpose S) A) :=
    matMul_ok (by simp [hS2, hA1])
  rw [t1, ok_bind, t2, ok_bind, t3, ok_bind, t4, ok_bind, t5, ok_bind, t6, ok_bind]
  rw [ok_bind, t8, ok_bind]
  have hsq : (maddP c.R (mmulP (mmulP B.transpose S) B)).rows
      = (maddP c.R (mmulP (mmulP B.transpose S) B)).cols := by
    simp [hR1, hR2]
  cases hg : gaussInv (maddP c.R (mmulP (mmulP B.transpose S) B)) with
  | none =>
    right
    rw [tryInverseExpect_none hsq hg, error_bind]
  | some Mi =>
    left
    obtain ⟨hMi1, hMi2⟩ := gaussInv_shape hg
    have hMr : Mi.rows = 1 := by rw [hMi1]; simp [hR1, hm]
    have hMc : Mi.cols = 1 := by rw [hMi2]; simp [hR1, hm]
    rw [tryInverseExpect_some hsq hg, ok_bind]
    have t9 : matMul (mnegP Mi) (mmulP (mmulP B.transpose S) A)
        = .ok (mmulP (mnegP Mi) (mmulP (mmulP B.transpose S) A)) :=
      matMul_ok (by simp [hMc, hB2])
    have t10 : matMul (mnegP Mi) Qu = .ok (mmulP (mnegP Mi) Qu) :=
      matMul_ok (by simp [hMc, hQu1])
    have t11 : matMul (mmulP (mnegP Mi) (mmulP (mmulP B.transpose S) A)).transpose
        (maddP c.R (mmulP (mmulP B.transpose S) B))
        = .ok (mmulP (mmulP (mnegP Mi) (mmulP (mmulP B.transpose S) A)).transpose
          (maddP c.R (mmulP (mmulP B.transpose S) B))) :=
      matMul_ok (by simp [hMr, hR1, hm])
    have t12 : matMul (mmulP (mmulP (mnegP Mi) (mmulP (mmulP B.transpose S) A)).transpose
        (maddP c.R (mmulP (mmulP B.transpose S) B))) (mmulP (mnegP Mi) Qu)
        = .ok (mmulP (mmulP (mmulP (mnegP Mi) (mmulP (mmulP B.transpose S) A)).transpose
          (maddP c.R (mmulP (mmulP B.transpose S) B))) (mmulP (mnegP Mi) Qu)) :=
      matMul_ok (by simp [hR2, hm, hMr])
    have t13 : matAdd Qx (mmulP (mmulP (mmulP (mnegP Mi) (mmulP (mmulP B.transpose S) A)).transpose
        (maddP c.R (mmulP (mmulP B.transpose S) B))) (mmulP (mnegP Mi) Qu))
        = .ok (maddP Qx (mmulP (mmulP (mmulP (mnegP Mi)
          (mmulP (mmulP B.transpose S) A)).transpose
          (maddP c.R (mmulP (mmulP B.transpose S) B))) (mmulP (mnegP Mi) Qu))) :=
      matAdd_ok (by simp [hQx1, hA2]) (by simp [hQx2, hQu2])
    have t14 : matMul (mmulP (mnegP Mi) (mmulP (mmulP B.transpose S) A)).transpose Qu
        = .ok (mmulP (mmulP (mnegP Mi) (mmulP (mmulP B.transpose S) A)).transpose Qu) :=
      matMul_ok (by simp [hMr, hQu1])
    rw [t9, ok_bind, t10, ok_bind, t11, ok_bind, t12, ok_bind, t13, ok_bind, t14, ok_bind]
    have t15 : matAdd (maddP Qx (mmulP (mmulP (mmulP (mnegP Mi)
        (mmulP (mmulP B.transpose S) A)).transpose
        (maddP c.R (mmulP (mmulP B.transpose S) B))) (mmulP (mnegP Mi) Qu)))
        (mmulP (mmulP (mnegP Mi) (mmulP (mmulP B.transpose S) A)).transpose Qu)
        = .ok (maddP (maddP Qx (mmulP (mmulP (mmulP (mnegP Mi)
          (mmulP (mmulP B.transpose S) A)).transpose
          (maddP c.R (mmulP (mmulP B.transpose S) B))) (mmulP (mnegP Mi) Qu)))
          (mmulP (mmulP (mnegP Mi) (mmulP (mmulP B.transpose S) A)).transpose Qu)) :=
      matAdd_ok (by simp [hQx1, hA2]) (by simp [hQx2, hQu2])
    have t16 : matMul (mmulP (mmulP B.transpose S) A).transpose (mmulP (mnegP Mi) Qu)
        = .ok (mmulP (mmulP (mmulP B.transpose S) A).transpose (mmulP (mnegP Mi) Qu)) :=
      matMul_ok (by simp [hB2, hMr])
    rw [t15, ok_bind, t16, ok_bind]
    have t17 : matAdd (maddP (maddP Qx (mmulP (mmulP (mmulP (mnegP Mi)
        (mmulP (mmulP B.transpose S) A)).transpose
        (maddP c.R (mmulP (mmulP B.transpose S) B))) (mmulP (mnegP Mi) Qu)))
        (mmulP (mmulP (mnegP Mi) (mmulP (mmulP B.transpose S) A)).transpose Qu))
        (mmulP (mmulP (mmulP B.transpose S) A).transpose (mmulP (mnegP Mi) Qu))
        = .ok (maddP (maddP (maddP Qx (mmulP (mmulP (mmulP (mnegP Mi)
          (mmulP (mmulP B.transpose S) A)).transpose
          (maddP c.R (mmulP (mmulP B.transpose S) B))) (mmulP (mnegP Mi) Qu)))
          (mmulP (mmulP (mnegP Mi) (mmulP (mmulP B.transpose S) A)).transpose Qu))
          (mmulP (mmulP (mmulP B.transpose S) A).transpose (mmulP (mnegP Mi) Qu))) :=
      matAdd_ok (by simp [hQx1, hA2]) (by simp [hQx2, hQu2])
    rw [t17, ok_bind]
    have t18 : matMul (mmulP (mmulP (mnegP Mi) (mmulP (mmulP B.transpose S) A)).transpose
        (maddP c.R (mmulP (mmulP B.transpose S) B)))
        (mmulP (mnegP Mi) (mmulP (mmulP B.transpose S) A))
        = .ok (mmulP (mmulP (mmulP (mnegP Mi) (mmulP (mmulP B.transpose S) A)).transpose
          (maddP c.R (mmulP (mmulP B.transpose S) B)))
          (mmulP (mnegP Mi) (mmulP (mmulP B.transpose S) A))) :=
      matMul_ok (by simp [hR2, hm, hMr])
    rw [t18, ok_bind]
    have t19 : matAdd (maddP c.Q (mmulP (mmulP A.transpose S) A))
        (mmulP (mmulP (mmulP (mnegP Mi) (mmulP (mmulP B.transpose S) A)).transpose
        (maddP c.R (mmulP (mmulP B.transpose S) B)))
        (mmulP (mnegP Mi) (mmulP (mmulP B.transpose S) A)))
        = .ok (maddP (maddP c.Q (mmulP (mmulP A.transpose S) A))
          (mmulP (mmulP (mmulP (mnegP Mi) (mmulP (mmulP B.transpose S) A)).transpose
          (maddP c.R (mmulP (mmulP B.transpose S) B)))
          (mmulP (mnegP Mi) (mmulP (mmulP B.transpose S) A)))) :=
      matAdd_ok (by simp [hQ1, hA2]) (by simp [hQ2, hA2])
    rw [t19, ok_bind]
    have t20 : matMul (mmulP (mnegP Mi) (mmulP (mmulP B.transpose S) A)).transpose
        (mmulP (mmulP B.transpose S) A)
        = .ok (mmulP (mmulP (mnegP Mi) (mmulP (mmulP B.transpose S) A)).transpose
          (mmulP (mmulP B.transpose S) A)) :=
      matMul_ok (by simp [hMr, hB2])
    rw [t20, ok_bind]
    have t21 : matAdd (maddP (maddP c.Q (mmulP (mmulP A.transpose S) A))
        (mmulP (mmulP (mmulP (mnegP Mi) (mmulP (mmulP B.transpose S) A)).transpose
        (maddP c.R (mmulP (mmulP B.transpose S) B)))
        (mmulP (mnegP Mi) (mmulP (mmulP B.transpose S) A))))
        (mmulP (mmulP (mnegP Mi) (mmulP (mmulP B.transpose S) A)).transpose
        (mmulP (mmulP B.transpose S) A))
        = .ok (maddP (maddP (maddP c.Q (mmulP (mmulP A.transpose S) A))
          (mmulP (mmulP (mmulP (mnegP Mi) (mmulP (mmulP B.transpose S) A)).transpose
          (maddP c.R (mmulP (mmulP B.transpose S) B)))
          (mmulP (mnegP Mi) (mmulP (mmulP B.transpose S) A))))
          (mmulP (mmulP (mnegP Mi) (mmulP (mmulP B.transpose S) A)).transpose
          (mmulP (mmulP B.transpose S) A))) :=
      matAdd_ok (by simp [hQ1, hA2]) (by simp [hQ2, hA2])
    rw [t21, ok_bind]
    have t22 : matMul (mmulP (mmulP B.transpose S) A).transpose
        (mmulP (mnegP Mi) (mmulP (mmulP B.transpose S) A))
        = .ok (mmulP (mmulP (mmulP B.transpose S) A).transpose
          (mmulP (mnegP Mi) (mmulP (mmulP B.transpose S) A))) :=
      matMul_ok (by simp [hB2, hMr])
    rw [t22, ok_bind]
    have t23 : matAdd (maddP (maddP (maddP c.Q (mmulP (mmulP A.transpose S) A))
        (mmulP (mmulP (mmulP (mnegP Mi) (mmulP (mmulP B.transpose S) A)).transpose
        (maddP c.R (mmulP (mmulP B.transpose S) B)))
        (mmulP (mnegP Mi) (mmulP (mmulP B.transpose S) A))))
        (mmulP (mmulP (mnegP Mi) (mmulP (mmulP B.transpose S) A)).transpose
        (mmulP (mmulP B.transpose S) A)))
        (mmulP (mmulP (mmulP B.transpose S) A).transpose
        (mmulP (mnegP Mi) (mmulP (mmulP B.transpose S) A)))
        = .ok (maddP (maddP (maddP (maddP c.Q (mmulP (mmulP A.transpose S) A))
          (mmulP (mmulP (mmulP (mnegP Mi) (mmulP (mmulP B.transpose S) A)).transpose
          (maddP c.R (mmulP (mmulP B.transpose S) B)))
          (mmulP (mnegP Mi) (mmulP (mmulP B.transpose S) A))))
          (mmulP (mmulP (mnegP Mi) (mmulP (mmulP B.transpose S) A)).transpose
          (mmulP (mmulP B.transpose S) A)))
          (mmulP (mmulP (mmulP B.transpose S) A).transpose
          (mmulP (mnegP Mi) (mmulP (mmulP B.transpose S) A)))) :=
      matAdd_ok (by simp [hQ1, hA2]) (by simp [hQ2, hA2])
    rw [t23, ok_bind, pure_eq_ok]
    exact ⟨_, rfl⟩

/-- With a one-dimensional control space, consistent shapes and a
length-preserving dynamics, a backward step either succeeds — keeping the
shapes of `s` and `S` — or fails with the `Quu` inversion panic. -/
lemma backwardStep_total {c : ILQRSolver} {f : Dyn} {target x u s S : Mat}
    (hcs : CfgShape c) (hm : c.control_dim = 1) (hf : DynOK c f)
    (ht1 : target.rows = c.state_dim) (ht2 : target.cols = 1)
    (hx : IsVec c.state_dim x) (hu : IsVec 1 u)
    (hs1 : s.rows = c.state_dim) (hs2 : s.cols = 1)
    (hS1 : S.rows = c.state_dim) (hS2 : S.cols = c.state_dim) :
    (∃ K d s' S', c.backwardStep f target x u s S = .ok (K, d, s', S') ∧
      s'.rows = c.state_dim ∧ s'.cols = 1 ∧ S'.rows = c.state_dim ∧ S'.cols = c.state_dim) ∨
      c.backwardStep f target x u s S
        = .error (RtError.panicked "the matrix Quu is not invertible") := by
  obtain ⟨hQ1, hQ2, hQf1, hQf2, hR1, hR2⟩ := hcs
  obtain ⟨hx1, hx2, hx3⟩ := hx
  obtain ⟨hu1, hu2, hu3⟩ := hu
  unfold ILQRSolver.backwardStep
  rw [jacobians_eq hf hx3 (by rw [hu3, hm])]
  set A := mkMat c.state_dim c.state_dim (fun r i =>
    ((f (x.data.set i (x.data.getD i 0 + EPSILON)) u.data).getD r 0
      - (f (x.data.set i (x.data.getD i 0 - EPSILON)) u.data).getD r 0) / (2 * EPSILON))
    with hAdef
  set B := mkMat c.state_dim c.control_dim (fun r i =>
    ((f x.data (u.data.set i (u.data.getD i 0 + EPSILON))).getD r 0
      - (f x.data (u.data.set i (u.data.getD i 0 - EPSILON))).getD r 0) / (2 * EPSILON))
    with hBdef
  have hA1 : A.rows = c.state_dim := by rw [hAdef, rows_mkMat]
  have hA2 : A.cols = c.state_dim := by rw [hAdef, cols_mkMat]
  have hB1 : B.rows = c.state_dim := by rw [hBdef, rows_mkMat]
  have hB2 : B.cols = 1 := by rw [hBdef, cols_mkMat, hm]
  simp only [ok_bind]
  have e1 : matSub x target = .ok (msubP x target) :=
    matSub_ok (by rw [hx1, ht1]) (by rw [hx2, ht2])
  have e2 : matMul c.Q (msubP x target) = .ok (mmulP c.Q (msubP x target)) :=
    matMul_ok (by simp [hQ2, hx1])
  have e3 : matMul s.transpose A = .ok (mmulP s.transpose A) :=
    matMul_ok (by simp [hs1, hA1])
  have e4 : matAdd (mmulP c.Q (msubP x target)) (mmulP s.transpose A).transpose
      = .ok (maddP (mmulP c.Q (msubP x target)) (mmulP s.transpose A).transpose) :=
    matAdd_ok (by simp [hQ1, hA2]) (by simp [hx2, hs2])
  have e5 : matMul c.R u = .ok (mmulP c.R u) :=
    matMul_ok (by rw [hR2, hm, hu1])
  have e6 : matMul s.transpose B = .ok (mmulP s.transpose B) :=
    matMul_ok (by simp [hs1, hB1])
  have e7 : matAdd (mmulP c.R u) (mmulP s.transpose B)
      = .ok (maddP (mmulP c.R u) (mmulP s.transpose B)) :=
    matAdd_ok (by simp [hR1, hm, hs2]) (by simp [hu2, hB2])
  rw [e1, ok_bind, e2, ok_bind, e3, ok_bind, e4, ok_bind, e5, ok_bind, e6, ok_bind, e7, ok_bind]
  have := @quuTail_total c A B S
    (maddP (mmulP c.Q (msubP x target)) (mmulP s.transpose A).transpose)
    (maddP (mmulP c.R u) (mmulP s.transpose B))
    ⟨hQ1, hQ2, hQf1, hQf2, hR1, hR2⟩ hm hA1 hA2 hB1 hB2 hS1 hS2
    (by simp [hQ1]) (by simp [hx2]) (by simp [hR1, hm]) (by simp [hu2])
  rcases this with ⟨r, hr⟩ | herr
  · obtain ⟨K, d, s', S'⟩ := r
    obtain ⟨Mi, _, _, _, _, _, hr1, hr2, hr3, hr4⟩ := quuTail_ok hr
    exact Or.inl ⟨K, d, s', S', hr, by rw [hr1]; simp [hQ1],
      by rw [hr2]; simp [hx2], by rw [hr3, hQ1], by rw [hr4, hQ2]⟩
  · exact Or.inr herr

/-- C4 core: with a one-dimensional control space and dimensionally
consistent inputs, the whole code backward pass equals the backward pass
written with the specification's step formulas. -/
lemma backward_eq_spec {c : ILQRSolver} {xs us : List Mat} {target : Mat} {f : Dyn}
    (hcs : CfgShape c) (hm : c.control_dim = 1) (hf : DynOK c f)
    (ht1 : target.rows = c.state_dim) (ht2 : target.cols = 1)
    (hxs : ∀ v ∈ xs, IsVec c.state_dim v) (hus : ∀ v ∈ us, IsVec 1 v)
    (hlen : xs.length = us.length + 1) :
    c.backward xs us target f = c.backwardSpec xs us target f := by
  unfold ILQRSolver.backward ILQRSolver.backwardSpec
  cases hlast : lastUnwrap xs with
  | error e => rfl
  | ok xT =>
    have hxT : IsVec c.state_dim xT := by
      apply hxs
      unfold lastUnwrap at hlast
      cases hl2 : xs.getLast? with
      | none => rw [hl2] at hlast; exact absurd hlast (by simp)
      | some v =>
        rw [hl2] at hlast
        have hv : v = xT := Except.ok.inj hlast
        exact hv ▸ List.mem_of_mem_getLast? hl2
    simp only [ok_bind]
    have e1 : matSub xT target = .ok (msubP xT target) :=
      matSub_ok (by rw [hxT.1, ht1]) (by rw [hxT.2.1, ht2])
    have e2 : matMul c.Qf (msubP xT target) = .ok (mmulP c.Qf (msubP xT target)) :=
      matMul_ok (by simp [hcs.2.2.2.1, hxT.1])
    rw [e1, ok_bind, e2, ok_bind]
    have hbound : ∀ a ∈ (List.range (xs.length - 1)).reverse, a < xs.length - 1 :=
      fun a ha => List.mem_range.mp (List.mem_reverse.mp ha)
    have hfold := @foldE_congr (Mat × Mat × List Mat × List Mat) Nat
      (fun st i => do
        let r ← c.backwardStep f target (xs.getD i default) (us.getD i default)
          st.1 st.2.1
        Except.ok (r.2.2.1, r.2.2.2, st.2.2.1.set i r.1, st.2.2.2.set i r.2.1))
      (fun st i => do
        let r ← c.backwardStepSpec f target (xs.getD i default) (us.getD i default)
          st.1 st.2.1
        Except.ok (r.2.2.1, r.2.2.2, st.2.2.1.set i r.1, st.2.2.2.set i r.2.1))
      (fun st =>
        st.1.rows = c.state_dim ∧ st.1.cols = 1 ∧
          st.2.1.rows = c.state_dim ∧ st.2.1.cols = c.state_dim)
      ((List.range (xs.length - 1)).reverse)
      (mmulP c.Qf (msubP xT target), c.Qf,
        List.replicate xs.length (zeroM c.control_dim c.state_dim),
        List.replicate xs.length (zeroM c.control_dim 1))
      ?step ?init
    case init =>
      exact ⟨by simp [hcs.2.2.1], by simp [hxT.2.1], hcs.2.2.1, hcs.2.2.2.1⟩
    case step =>
      intro a ha st hP
      have ha1 : a < xs.length - 1 := hbound a ha
      have hxa : IsVec c.state_dim (xs.getD a default) := hxs _ (getD_mem _ (by omega))
      have hua : IsVec 1 (us.getD a default) := hus _ (getD_mem _ (by omega))
      constructor
      · dsimp only
        rw [backwardStep_eq_spec hm hcs ht1 ht2 hxa.1 hxa.2.1 hua.1 hua.2.1
          hP.1 hP.2.1 hP.2.2.1 hP.2.2.2]
      · intro st' hok
        dsimp only at hok
        rcases bind_eq_ok.mp hok with ⟨r, hr, hok2⟩
        obtain ⟨K, dd, s', S'⟩ := r
        obtain ⟨A, B, Qinv, _, _, _, _, _, _, _, _, _, _, hs'1, hs'2, hS'1, hS'2⟩ :=
          backwardStep_ok hr
        have hst' := Except.ok.inj hok2
        rw [← hst']
        refine ⟨?_, ?_, ?_, ?_⟩
        · show s'.rows = c.state_dim
          rw [hs'1, hcs.1]
        · show s'.cols = 1
          rw [hs'2]
          exact hxa.2.1
        · show S'.rows = c.state_dim
          rw [hS'1, hcs.1]
        · show S'.cols = c.state_dim
          rw [hS'2, hcs.2.1]
    rw [hfold, ok_bind, e2, ok_bind]

lemma matAdd_err {A B : Mat} (h : ¬(A.rows = B.rows ∧ A.cols = B.cols)) :
    matAdd A B = .error .dimMismatch := by
  simp [matAdd, h]

lemma dotM_err {A B : Mat} (h : ¬(A.rows = B.rows ∧ A.cols = B.cols)) :
    dotM A B = .error .dimMismatch := by
  simp [dotM, h]

/-- The states produced after each step of rolling `us` out through the
dynamics from `x` — the specification's `xs[t+1] = f(xs[t], us[t])`.
Second definition, following the specification's words (claim C5). -/
def rollout (f : Dyn) (x : Mat) : List Mat → List Mat
  | [] => []
  | u :: rest => colVec (f x.data u.data) :: rollout f (colVec (f x.data u.data)) rest

/-- The specification's state trajectory: `xs[0] = x0` followed by the
rolled-out states.  Second definition, following the specification's words. -/
def trajSpec (f : Dyn) (x0 : Mat) (us : List Mat) : List Mat := x0 :: rollout f x0 us

/-- The state after rolling all of `us` out from `x`. -/
def endState (f : Dyn) : Mat → List Mat → Mat
  | x, [] => x
  | x, u :: rest => endState f (colVec (f x.data u.data)) rest

/-- The specification's running cost
`Σ_t (x_{t+1}-target)ᵀ·Q·(x_{t+1}-target) + u_tᵀ·R·u_t`.
Second definition, following the specification's words. -/
def stepLoss (c : ILQRSolver) (f : Dyn) (target : Mat) : Mat → List Mat → ℚ
  | _, [] => 0
  | x, u :: rest =>
      quadForm c.Q (msubP (colVec (f x.data u.data)) target) + quadForm c.R u
        + stepLoss c f target (colVec (f x.data u.data)) rest

/-- The specification's total cost: running cost plus terminal cost
`(x_T-target)ᵀ·Qf·(x_T-target)`.  Second definition, following the
specification's words. -/
def lossSpec (c : ILQRSolver) (f : Dyn) (target x0 : Mat) (us : List Mat) : ℚ :=
  stepLoss c f target x0 us + quadForm c.Qf (msubP (endState f x0 us) target)

@[simp] lemma rollout_nil (f : Dyn) (x : Mat) : rollout f x [] = [] := rfl
@[simp] lemma endState_nil (f : Dyn) (x : Mat) : endState f x [] = x := rfl
@[simp] lemma stepLoss_nil (c : ILQRSolver) (f : Dyn) (target x : Mat) :
    stepLoss c f target x [] = 0 := rfl

lemma rollout_cons (f : Dyn) (x u : Mat) (rest : List Mat) :
    rollout f x (u :: rest)
      = colVec (f x.data u.data) :: rollout f (colVec (f x.data u.data)) rest := rfl

lemma length_rollout (f : Dyn) (x : Mat) (us : List Mat) :
    (rollout f x us).length = us.length := by
  induction us generalizing x with
  | nil => rfl
  | cons u rest ih => simp [rollout, ih]

lemma endState_isVec {c : ILQRSolver} {f : Dyn} (hf : DynOK c f) (hm : c.control_dim = 1)
    {x : Mat} {us : List Mat} (hx : IsVec c.state_dim x) (hus : ∀ v ∈ us, IsVec 1 v) :
    IsVec c.state_dim (endState f x us) := by
  induction us generalizing x with
  | nil => exact hx
  | cons u rest ih =>
    have hu := hus u (List.mem_cons_self _ _)
    exact ih (isVec_colVec (hf _ _ hx.2.2 (by rw [hu.2.2, hm])))
      (fun v hv => hus v (List.mem_cons_of_mem _ hv))

/-- The value of the code's `(deltaᵀ·M).dot(deltaᵀ)` is the quadratic form. -/
lemma dotM_quadForm {M v : Mat} (hv2 : v.cols = 1) (hv1 : v.rows = M.rows)
    (hsq : M.rows = M.cols) :
    dotM (mmulP v.transpose M) v.transpose = .ok (quadForm M v) := by
  rw [dotM_ok (by simp) (by simp [← hv1, ← hsq])]
  congr 1
  unfold quadForm
  have h1 : (mmulP v.transpose M).rows = 1 := by simp [hv2]
  rw [h1, sumR_one]
  rw [show (mmulP v.transpose M).cols = M.cols from rfl]
  apply sumR_congr
  intro j hj
  rw [entry_mmulP (by simp [hv2]) hj]
  have h2 : v.transpose.cols = M.rows := by simp [hv1]
  rw [entry_transpose (by simp [hv2]) (by rw [hv1, hsq]; exact hj)]
  congr 1
  rw [h2]
  apply sumR_congr
  intro k hk
  rw [entry_transpose (by simp [hv2]) (by rw [hv1]; exact hk)]

/-- The value of the code's `(uᵀ·R).dot(&u)` for a `1×1` control is the
control quadratic form. -/
lemma dotM_quadForm_ctrl {R u : Mat} (hu1 : u.rows = 1) (hu2 : u.cols = 1)
    (hR1 : R.rows = 1) (hR2 : R.cols = 1) :
    dotM (mmulP u.transpose R) u = .ok (quadForm R u) := by
  rw [dotM_ok (by simp [hu2, hu1]) (by simp [hR2, hu2])]
  congr 1
  unfold quadForm
  have h1 : (mmulP u.transpose R).rows = 1 := by simp [hu2]
  rw [h1, sumR_one, hR2, sumR_one,
    show (mmulP u.transpose R).cols = R.cols from rfl, hR2, sumR_one]
  rw [entry_mmulP (by simp [hu2]) (by rw [hR2]; omega)]
  have h3 : u.transpose.cols = 1 := by simp [hu1]
  rw [h3, sumR_one, hR1, sumR_one]
  rw [entry_transpose (by simp [hu2]) (by omega)]

/-- The rollout loop of `ILQRSolver::forward`, fully evaluated: it always
succeeds under consistent shapes and accumulates exactly the
specification's states and running cost. -/
lemma forward_fold {c : ILQRSolver} {f : Dyn} {target : Mat}
    (hcs : CfgShape c) (hm : c.control_dim = 1) (hf : DynOK c f)
    (ht1 : target.rows = c.state_dim) (ht2 : target.cols = 1) :
    ∀ (us : List Mat) (x : Mat) (acc : List Mat) (loss : ℚ),
      (∀ v ∈ us, IsVec 1 v) → IsVec c.state_dim x →
      foldE (fun st u => do
          let x' := colVec (f st.1.data u.data)
          let delta ← matSub x' target
          let dtQ ← matMul delta.transpose c.Q
          let q1 ← dotM dtQ delta.transpose
          let utR ← matMul u.transpose c.R
          let q2 ← dotM utR u
          Except.ok (x', st.2.1 ++ [x'], st.2.2 + (q1 + q2)))
        (x, acc, loss) us
      = .ok (endState f x us, acc ++ rollout f x us, loss + stepLoss c f target x us) := by
  obtain ⟨hQ1, hQ2, hQf1, hQf2, hR1, hR2⟩ := hcs
  intro us
  induction us with
  | nil =>
    intro x acc loss _ _
    simp [foldE]
  | cons u rest ih =>
    intro x acc loss hus hx
    have hu := hus u (List.mem_cons_self _ _)
    have hfl : (f x.data u.data).length = c.state_dim :=
      hf _ _ hx.2.2 (by rw [hu.2.2, hm])
    have hx' : IsVec c.state_dim (colVec (f x.data u.data)) := isVec_colVec hfl
    rw [foldE_cons]
    have e1 : matSub (colVec (f x.data u.data)) target
        = .ok (msubP (colVec (f x.data u.data)) target) :=
      matSub_ok (by rw [hx'.1, ht1]) (by rw [hx'.2.1, ht2])
    have e2 : matMul (msubP (colVec (f x.data u.data)) target).transpose c.Q
        = .ok (mmulP (msubP (colVec (f x.data u.data)) target).transpose c.Q) :=
      matMul_ok (by simp [hfl, hQ1])
    have e3 : dotM (mmulP (msubP (colVec (f x.data u.data)) target).transpose c.Q)
        (msubP (colVec (f x.data u.data)) target).transpose
        = .ok (quadForm c.Q (msubP (colVec (f x.data u.data)) target)) :=
      dotM_quadForm (by simp) (by simp [hfl, hQ1]) (by rw [hQ1, hQ2])
    have e4 : matMul u.transpose c.R = .ok (mmulP u.transpose c.R) :=
      matMul_ok (by simp [hu.1, hR1, hm])
    have e5 : dotM (mmulP u.transpose c.R) u = .ok (quadForm c.R u) :=
      dotM_quadForm_ctrl hu.1 hu.2.1 (by rw [hR1, hm]) (by rw [hR2, hm])
    dsimp only
    dsimp only at ih
    rw [e1, ok_bind, e2, ok_bind, e3, ok_bind, e4, ok_bind, e5, ok_bind]
    rw [ok_bind, ih _ _ _ (fun v hv => hus v (List.mem_cons_of_mem _ hv)) hx']
    show Except.ok (endState f (colVec (f x.data u.data)) rest,
        (acc ++ [colVec (f x.data u.data)]) ++ rollout f (colVec (f x.data u.data)) rest,
        loss + (quadForm c.Q (msubP (colVec (f x.data u.data)) target) + quadForm c.R u)
          + stepLoss c f target (colVec (f x.data u.data)) rest)
      = Except.ok (endState f (colVec (f x.data u.data)) rest,
        acc ++ (colVec (f x.data u.data) :: rollout f (colVec (f x.data u.data)) rest),
        loss + (quadForm c.Q (msubP (colVec (f x.data u.data)) target) + quadForm c.R u
          + stepLoss c f target (colVec (f x.data u.data)) rest))
    rw [List.append_assoc, add_assoc]
    rfl

/-- C5 core: with a one-dimensional control space and consistent shapes the
forward pass succeeds and returns exactly the specification's trajectory and
cost. -/
lemma forward_eq {c : ILQRSolver} {f : Dyn} {target x0 : Mat} {us : List Mat}
    (hcs : CfgShape c) (hm : c.control_dim = 1) (hf : DynOK c f)
    (ht1 : target.rows = c.state_dim) (ht2 : target.cols = 1)
    (hx0 : IsVec c.state_dim x0) (hus : ∀ v ∈ us, IsVec 1 v) :
    c.forward x0 us target f = .ok (trajSpec f x0 us, lossSpec c f target x0 us) := by
  unfold ILQRSolver.forward
  rw [forward_fold hcs hm hf ht1 ht2 us x0 [x0] 0 hus hx0, ok_bind]
  dsimp only
  have hend := endState_isVec hf hm hx0 hus
  have e1 : matSub (endState f x0 us) target = .ok (msubP (endState f x0 us) target) :=
    matSub_ok (by rw [hend.1, ht1]) (by rw [hend.2.1, ht2])
  have e2 : matMul (msubP (endState f x0 us) target).transpose c.Qf
      = .ok (mmulP (msubP (endState f x0 us) target).transpose c.Qf) :=
    matMul_ok (by simp [hend.1, hcs.2.2.1])
  have e3 : dotM (mmulP (msubP (endState f x0 us) target).transpose c.Qf)
      (msubP (endState f x0 us) target).transpose
      = .ok (quadForm c.Qf (msubP (endState f x0 us) target)) :=
    dotM_quadForm (by simp [hend.2.1]) (by simp [hend.1, hcs.2.2.1])
      (by rw [hcs.2.2.1, hcs.2.2.2.1])
  rw [e1, ok_bind, e2, ok_bind, e3, ok_bind, pure_eq_ok]
  show Except.ok ([x0] ++ rollout f x0 us, 0 + stepLoss c f target x0 us
      + quadForm c.Qf (msubP (endState f x0 us) target))
    = Except.ok (trajSpec f x0 us, lossSpec c f target x0 us)
  rw [zero_add]
  rfl

lemma lastUnwrap_ok {xs : List Mat} (h : xs ≠ []) :
    ∃ xT, lastUnwrap xs = .ok xT ∧ xT ∈ xs := by
  unfold lastUnwrap
  cases hl : xs.getLast? with
  | none => exact absurd (by simpa using hl) h
  | some v => exact ⟨v, rfl, List.mem_of_mem_getLast? hl⟩

lemma range_reverse_cons {k : Nat} (h : 0 < k) :
    (List.range k).reverse = (k - 1) :: (List.range (k - 1)).reverse := by
  cases k with
  | zero => omega
  | succ n => simp [List.range_succ]

lemma set_replicate {α : Type} (n i : Nat) (a : α) :
    (List.replicate n a).set i a = List.replicate n a := by
  induction n generalizing i with
  | zero => rfl
  | succ m ih =>
    cases i with
    | zero => rfl
    | succ j => simp [List.replicate_succ, ih]

/-- A well-formed column vector is rebuilt by `colVec` from its own data. -/
lemma colVec_data_self {n : Nat} {v : Mat} (h : IsVec n v) : colVec v.data = v := by
  obtain ⟨h1, h2, h3⟩ := h
  obtain ⟨r, c, d⟩ := v
  simp only at h1 h2 h3
  unfold colVec
  simp only
  rw [h3, ← h1, h2]

/-- `jacobians` evaluates the dynamics exactly `2·(n + m)` times: two probes
per state dimension and two per control dimension. -/
lemma jacobiansTrace_length (c : ILQRSolver) (x u : List ℚ) :
    (c.jacobiansTrace x u).length = 2 * (c.state_dim + c.control_dim) := by
  have h1 : ∀ (k : Nat) (g g' : Nat → List ℚ × List ℚ),
      (((List.range k).map (fun i => [g i, g' i])).map List.length).sum = 2 * k := by
    intro k g g'
    induction k with
    | zero => rfl
    | succ j ih =>
      rw [List.range_succ]
      simp only [List.map_append, List.map_cons, List.map_nil, List.sum_append]
      rw [ih]
      simp
      omega
  unfold ILQRSolver.jacobiansTrace
  rw [List.length_append, List.length_flatten, List.length_flatten, h1, h1]
  ring

/-- With two or more control dimensions and at least one timestep, the
forward pass hits the shape assertion of `(uᵀ·R).dot(&u)`: the row `uᵀR` is
`1×m` while `u` is `m×1`. -/
lemma forward_mge2 {c : ILQRSolver} {f : Dyn} {target x0 u0 : Mat} {us : List Mat}
    (hcs : CfgShape c) (hm2 : 2 ≤ c.control_dim) (hf : DynOK c f)
    (ht1 : target.rows = c.state_dim) (ht2 : target.cols = 1)
    (hx0 : IsVec c.state_dim x0) (hu0 : IsVec c.control_dim u0) :
    c.forward x0 (u0 :: us) target f = .error .dimMismatch := by
  obtain ⟨hQ1, hQ2, hQf1, hQf2, hR1, hR2⟩ := hcs
  have hfl : (f x0.data u0.data).length = c.state_dim := hf _ _ hx0.2.2 hu0.2.2
  have hx' : IsVec c.state_dim (colVec (f x0.data u0.data)) := isVec_colVec hfl
  unfold ILQRSolver.forward
  rw [foldE_cons]
  dsimp only
  have e1 : matSub (colVec (f x0.data u0.data)) target
      = .ok (msubP (colVec (f x0.data u0.data)) target) :=
    matSub_ok (by rw [hx'.1, ht1]) (by rw [hx'.2.1, ht2])
  have e2 : matMul (msubP (colVec (f x0.data u0.data)) target).transpose c.Q
      = .ok (mmulP (msubP (colVec (f x0.data u0.data)) target).transpose c.Q) :=
    matMul_ok (by simp [hfl, hQ1])
  have e3 : dotM (mmulP (msubP (colVec (f x0.data u0.data)) target).transpose c.Q)
      (msubP (colVec (f x0.data u0.data)) target).transpose
      = .ok (quadForm c.Q (msubP (colVec (f x0.data u0.data)) target)) :=
    dotM_quadForm (by simp) (by simp [hfl, hQ1]) (by rw [hQ1, hQ2])
  have e4 : matMul u0.transpose c.R = .ok (mmulP u0.transpose c.R) :=
    matMul_ok (by simp [hu0.1, hR1])
  have e5 : dotM (mmulP u0.transpose c.R) u0 = .error .dimMismatch := by
    apply dotM_err
    intro hc
    have h1 := hc.1
    rw [rows_mmulP, rows_transpose, hu0.2.1, hu0.1] at h1
    omega
  rw [e1, ok_bind, e2, ok_bind, e3, ok_bind, e4, ok_bind, e5, error_bind, error_bind,
    error_bind]

/-- With two or more control dimensions and consistent inputs, a backward
step hits the shape assertion of `Qu = R·u + sᵀ·B`: the column `R·u` is
`m×1` while the row `sᵀB` is `1×m`. -/
lemma backwardStep_mge2 {c : ILQRSolver} {f : Dyn} {target x u s S : Mat}
    (hcs : CfgShape c) (hm2 : 2 ≤ c.control_dim) (hf : DynOK c f)
    (ht1 : target.rows = c.state_dim) (ht2 : target.cols = 1)
    (hx : IsVec c.state_dim x) (hu : IsVec c.control_dim u)
    (hs1 : s.rows = c.state_dim) (hs2 : s.cols = 1) :
    c.backwardStep f target x u s S = .error .dimMismatch := by
  obtain ⟨hQ1, hQ2, hQf1, hQf2, hR1, hR2⟩ := hcs
  unfold ILQRSolver.backwardStep
  rw [jacobians_eq hf hx.2.2 hu.2.2]
  set A := mkMat c.state_dim c.state_dim (fun r i =>
    ((f (x.data.set i (x.data.getD i 0 + EPSILON)) u.data).getD r 0
      - (f (x.data.set i (x.data.getD i 0 - EPSILON)) u.data).getD r 0) / (2 * EPSILON))
    with hAdef
  set B := mkMat c.state_dim c.control_dim (fun r i =>
    ((f x.data (u.data.set i (u.data.getD i 0 + EPSILON))).getD r 0
      - (f x.data (u.data.set i (u.data.getD i 0 - EPSILON))).getD r 0) / (2 * EPSILON))
    with hBdef
  have hA1 : A.rows = c.state_dim := by rw [hAdef, rows_mkMat]
  have hA2 : A.cols = c.state_dim := by rw [hAdef, cols_mkMat]
  have hB1 : B.rows = c.state_dim := by rw [hBdef, rows_mkMat]
  simp only [ok_bind]
  have e1 : matSub x target = .ok (msubP x target) :=
    matSub_ok (by rw [hx.1, ht1]) (by rw [hx.2.1, ht2])
  have e2 : matMul c.Q (msubP x target) = .ok (mmulP c.Q (msubP x target)) :=
    matMul_ok (by simp [hQ2, hx.1])
  have e3 : matMul s.transpose A = .ok (mmulP s.transpose A) :=
    matMul_ok (by simp [hs1, hA1])
  have e4 : matAdd (mmulP c.Q (msubP x target)) (mmulP s.transpose A).transpose
      = .ok (maddP (mmulP c.Q (msubP x target)) (mmulP s.transpose A).transpose) :=
    matAdd_ok (by simp [hQ1, hA2]) (by simp [hx.2.1, hs2])
  have e5 : matMul c.R u = .ok (mmulP c.R u) :=
    matMul_ok (by rw [hR2, hu.1])
  have e6 : matMul s.transpose B = .ok (mmulP s.transpose B) :=
    matMul_ok (by simp [hs1, hB1])
  have e7 : matAdd (mmulP c.R u) (mmulP s.transpose B) = .error .dimMismatch := by
    apply matAdd_err
    intro hc
    have h1 := hc.1
    rw [rows_mmulP, rows_mmulP, rows_transpose, hR1, hs2] at h1
    omega
  rw [e1, ok_bind, e2, ok_bind, e3, ok_bind, e4, ok_bind, e5, ok_bind, e6, ok_bind, e7,
    error_bind]

/-- With two or more control dimensions and at least one timestep, the
backward pass fails the `Qu` shape assertion at its first step. -/
lemma backward_mge2 {c : ILQRSolver} {f : Dyn} {target : Mat} {xs us : List Mat}
    (hcs : CfgShape c) (hm2 : 2 ≤ c.control_dim) (hf : DynOK c f)
    (ht1 : target.rows = c.state_dim) (ht2 : target.cols = 1)
    (hxs : ∀ v ∈ xs, IsVec c.state_dim v) (hus : ∀ v ∈ us, IsVec c.control_dim v)
    (hlen : xs.length = us.length + 1) (hne : us ≠ []) :
    c.backward xs us target f = .error .dimMismatch := by
  have husl : 0 < us.length := List.length_pos.mpr hne
  have hxne : xs ≠ [] := by
    intro h
    rw [h] at hlen
    simp at hlen
  obtain ⟨xT, hlast, hmem⟩ := lastUnwrap_ok hxne
  have hxT := hxs xT hmem
  unfold ILQRSolver.backward
  rw [hlast]
  simp only [ok_bind]
  have e1 : matSub xT target = .ok (msubP xT target) :=
    matSub_ok (by rw [hxT.1, ht1]) (by rw [hxT.2.1, ht2])
  have e2 : matMul c.Qf (msubP xT target) = .ok (mmulP c.Qf (msubP xT target)) :=
    matMul_ok (by simp [hcs.2.2.2.1, hxT.1])
  rw [e1, ok_bind, e2, ok_bind]
  rw [range_reverse_cons (by omega), foldE_cons]
  dsimp only
  have hix : xs.length - 1 - 1 < xs.length := by omega
  have hiu : xs.length - 1 - 1 < us.length := by omega
  have hstep := backwardStep_mge2 (s := mmulP c.Qf (msubP xT target)) (S := c.Qf)
    hcs hm2 hf ht1 ht2
    (hxs _ (getD_mem default hix)) (hus _ (getD_mem default hiu))
    (by simp [hcs.2.2.1]) (by simp [hxT.2.1])
  rw [hstep, error_bind, error_bind, error_bind]

/-- With a one-dimensional control space and consistent inputs, the backward
pass never fails a shape assertion: its only possible failure is the `Quu`
inversion panic. -/
lemma backward_no_dim {c : ILQRSolver} {f : Dyn} {target : Mat} {xs us : List Mat}
    (hcs : CfgShape c) (hm : c.control_dim = 1) (hf : DynOK c f)
    (ht1 : target.rows = c.state_dim) (ht2 : target.cols = 1)
    (hxs : ∀ v ∈ xs, IsVec c.state_dim v) (hus : ∀ v ∈ us, IsVec 1 v)
    (hlen : xs.length = us.length + 1) :
    c.backward xs us target f ≠ .error .dimMismatch := by
  have hxne : xs ≠ [] := by
    intro h
    rw [h] at hlen
    simp at hlen
  obtain ⟨xT, hlast, hmem⟩ := lastUnwrap_ok hxne
  have hxT := hxs xT hmem
  unfold ILQRSolver.backward
  rw [hlast]
  simp only [ok_bind]
  have e1 : matSub xT target = .ok (msubP xT target) :=
    matSub_ok (by rw [hxT.1, ht1]) (by rw [hxT.2.1, ht2])
  have e2 : matMul c.Qf (msubP xT target) = .ok (mmulP c.Qf (msubP xT target)) :=
    matMul_ok (by simp [hcs.2.2.2.1, hxT.1])
  rw [e1, ok_bind, e2, ok_bind]
  have hbound : ∀ a ∈ (List.range (xs.length - 1)).reverse, a < xs.length - 1 :=
    fun a ha => List.mem_range.mp (List.mem_reverse.mp ha)
  have hnd := foldE_no_dim
    (g := fun (st : Mat × Mat × List Mat × List Mat) i => do
      let r ← c.backwardStep f target (xs.getD i default) (us.getD i default)
        st.1 st.2.1
      Except.ok (r.2.2.1, r.2.2.2, st.2.2.1.set i r.1, st.2.2.2.set i r.2.1))
    (P := fun st : Mat × Mat × List Mat × List Mat =>
      st.1.rows = c.state_dim ∧ st.1.cols = 1 ∧
        st.2.1.rows = c.state_dim ∧ st.2.1.cols = c.state_dim)
    (l := (List.range (xs.length - 1)).reverse)
    (s := (mmulP c.Qf (msubP xT target), c.Qf,
      List.replicate xs.length (zeroM c.control_dim c.state_dim),
      List.replicate xs.length (zeroM c.control_dim 1)))
    ?step ?init
  case init =>
    exact ⟨by simp [hcs.2.2.1], by simp [hxT.2.1], hcs.2.2.1, hcs.2.2.2.1⟩
  case step =>
    intro a ha st hP
    have ha1 : a < xs.length - 1 := hbound a ha
    have hxa : IsVec c.state_dim (xs.getD a default) := hxs _ (getD_mem _ (by omega))
    have hua : IsVec 1 (us.getD a default) := hus _ (getD_mem _ (by omega))
    rcases backwardStep_total hcs hm hf ht1 ht2 hxa hua hP.1 hP.2.1 hP.2.2.1 hP.2.2.2
      with ⟨K, d, s', S', hok, hs'1, hs'2, hS'1, hS'2⟩ | herr
    · constructor
      · dsimp only
        rw [hok, ok_bind]
        exact fun hcon => Except.noConfusion hcon
      · intro t' ht'
        dsimp only at ht'
        rw [hok, ok_bind] at ht'
        have hv := Except.ok.inj ht'
        rw [← hv]
        exact ⟨hs'1, hs'2, hS'1, hS'2⟩
    · constructor
      · dsimp only
        rw [herr, error_bind]
        intro hcon
        injection hcon with h'
        exact RtError.noConfusion h'
      · intro t' ht'
        dsimp only at ht'
        rw [herr, error_bind] at ht'
        exact absurd ht' (by simp)
  cases hfe : foldE
      (fun (st : Mat × Mat × List Mat × List Mat) i => do
        let r ← c.backwardStep f target (xs.getD i default) (us.getD i default)
          st.1 st.2.1
        Except.ok (r.2.2.1, r.2.2.2, st.2.2.1.set i r.1, st.2.2.2.set i r.2.1))
      (mmulP c.Qf (msubP xT target), c.Qf,
        List.replicate xs.length (zeroM c.control_dim c.state_dim),
        List.replicate xs.length (zeroM c.control_dim 1))
      ((List.range (xs.length - 1)).reverse) with
  | ok stF =>
    rw [ok_bind]
    intro hcon
    rw [pure_eq_ok] at hcon
    exact Except.noConfusion hcon
  | error e =>
    rw [error_bind]
    intro hcon
    injection hcon with h'
    rw [h'] at hfe
    exact hnd hfe

/-- With two or more control dimensions and at least one timestep, `solve`
fails with the forward pass's shape mismatch in its first iteration. -/
lemma solve_mge2 {c : ILQRSolver} {f : Dyn} {target x0 : Mat} {T maxI : Nat}
    {thr : ℚ} {sq : ℚ → ℚ}
    (hcs : CfgShape c) (hm2 : 2 ≤ c.control_dim) (hf : DynOK c f)
    (ht1 : target.rows = c.state_dim) (ht2 : target.cols = 1)
    (hx0 : IsVec c.state_dim x0) :
    c.solve x0 target f (T + 1) (maxI + 1) thr sq = .error .dimMismatch := by
  have hfw : c.forward x0 (List.replicate (T + 1) (zeroM c.control_dim 1)) target f
      = .error .dimMismatch := by
    rw [List.replicate_succ]
    exact forward_mge2 hcs hm2 hf ht1 ht2 hx0 (isVec_zeroM c.control_dim)
  have hit : c.solveIter x0 target f (T + 1)
      (List.replicate (T + 1) (zeroM c.control_dim 1)) = .error .dimMismatch := by
    unfold ILQRSolver.solveIter
    rw [hfw, error_bind]
  unfold ILQRSolver.solve
  simp only [ILQRSolver.solveLoop]
  rw [hit, error_bind, error_bind]

/-- On success the backward pass returns `xs.length` (that is, `T + 1`)
gain matrices and `T + 1` feedforward vectors — one more than the `T`
timesteps — with the entry at index `T` left at its zero initialization. -/
lemma backward_lengths {c : ILQRSolver} {f : Dyn} {target : Mat} {xs us Ks ds : List Mat}
    (hcs : CfgShape c) (hus : ∀ v ∈ us, IsVec c.control_dim v)
    (hlen : xs.length = us.length + 1)
    (h : c.backward xs us target f = .ok (Ks, ds)) :
    Ks.length = us.length + 1 ∧ ds.length = us.length + 1 ∧
      (∀ K ∈ Ks, K.rows = c.control_dim ∧ K.cols = c.state_dim) ∧
      (∀ d ∈ ds, d.rows = c.control_dim ∧ d.cols = 1) ∧
      Ks.getD us.length default = zeroM c.control_dim c.state_dim ∧
      ds.getD us.length default = zeroM c.control_dim 1 := by
  unfold ILQRSolver.backward at h
  rcases bind_eq_ok.mp h with ⟨xT, hxT, h⟩
  rcases bind_eq_ok.mp h with ⟨dT, hdT, h⟩
  rcases bind_eq_ok.mp h with ⟨s0, hs0, h⟩
  rcases bind_eq_ok.mp h with ⟨stF, hstF, h⟩
  rw [pure_eq_ok] at h
  have hp := Except.ok.inj h
  have hKs : stF.2.2.1 = Ks := congrArg Prod.fst hp
  have hds : stF.2.2.2 = ds := congrArg Prod.snd hp
  have hbound : ∀ a ∈ (List.range (xs.length - 1)).reverse, a < xs.length - 1 :=
    fun a ha => List.mem_range.mp (List.mem_reverse.mp ha)
  have hinv := foldE_ok_inv
    (g := fun (st : Mat × Mat × List Mat × List Mat) i => do
      let r ← c.backwardStep f target (xs.getD i default) (us.getD i default)
        st.1 st.2.1
      Except.ok (r.2.2.1, r.2.2.2, st.2.2.1.set i r.1, st.2.2.2.set i r.2.1))
    (P := fun st : Mat × Mat × List Mat × List Mat =>
      st.2.2.1.length = xs.length ∧ st.2.2.2.length = xs.length ∧
        (∀ K ∈ st.2.2.1, K.rows = c.control_dim ∧ K.cols = c.state_dim) ∧
        (∀ d ∈ st.2.2.2, d.rows = c.control_dim ∧ d.cols = 1) ∧
        st.2.2.1.getD us.length default = zeroM c.control_dim c.state_dim ∧
        st.2.2.2.getD us.length default = zeroM c.control_dim 1)
    ?hstep ?h0 hstF
  case h0 =>
    refine ⟨by simp, by simp, ?_, ?_, ?_, ?_⟩
    · intro K hK
      rw [List.eq_of_mem_replicate hK]
      exact ⟨rfl, rfl⟩
    · intro d hd
      rw [List.eq_of_mem_replicate hd]
      exact ⟨rfl, rfl⟩
    · exact getD_replicate_lt _ _ _ _ (by omega)
    · exact getD_replicate_lt _ _ _ _ (by omega)
  case hstep =>
    intro a ha t t' hP hg
    have ha1 : a < us.length := by
      have := hbound a ha
      omega
    dsimp only at hg
    rcases bind_eq_ok.mp hg with ⟨r, hr, hg2⟩
    obtain ⟨K, d, s', S'⟩ := r
    obtain ⟨A, B, Qinv, hjac, hA1, hA2, hB1, hB2, hg', hir, hic, hKv, hdv, _, _, _, _⟩ :=
      backwardStep_ok hr
    have hua : IsVec c.control_dim (us.getD a default) := hus _ (getD_mem default ha1)
    have ht' := Except.ok.inj hg2
    rw [← ht']
    have hKshape : K.rows = c.control_dim ∧ K.cols = c.state_dim := by
      rw [hKv]
      constructor
      · rw [rows_mmulP, rows_mnegP, hir, hcs.2.2.2.2.1]
      · rw [cols_mmulP, cols_mmulP, hA2]
    have hdshape : d.rows = c.control_dim ∧ d.cols = 1 := by
      rw [hdv]
      constructor
      · rw [rows_mmulP, rows_mnegP, hir, hcs.2.2.2.2.1]
      · rw [cols_mmulP, cols_maddP, cols_mmulP, hua.2.1]
    refine ⟨?_, ?_, ?_, ?_, ?_, ?_⟩
    · rw [List.length_set]
      exact hP.1
    · rw [List.length_set]
      exact hP.2.1
    · intro K' hK'
      rcases mem_set_cases hK' with h' | h'
      · rw [h']
        exact hKshape
      · exact hP.2.2.1 K' h'
    · intro d' hd'
      rcases mem_set_cases hd' with h' | h'
      · rw [h']
        exact hdshape
      · exact hP.2.2.2.1 d' h'
    · rw [getD_set_ne _ _ _ _ _ (by omega)]
      exact hP.2.2.2.2.1
    · rw [getD_set_ne _ _ _ _ _ (by omega)]
      exact hP.2.2.2.2.2
  dsimp only at hinv
  rw [hKs, hds] at hinv
  obtain ⟨h1, h2, h3, h4, h5, h6⟩ := hinv
  exact ⟨by omega, by omega, h3, h4, h5, h6⟩

lemma msubP_self (A : Mat) : msubP A A = zeroM A.rows A.cols :=
  mkMat_eq_zeroM (fun _ _ _ _ => sub_self _)

/-- Rolling out the no-op dynamics repeats the initial state. -/
lemma rollout_noop {n : Nat} {x0 : Mat} (hx0 : IsVec n x0) (us : List Mat) :
    rollout (fun a _ => a) x0 us = List.replicate us.length x0 := by
  induction us with
  | nil => rfl
  | cons u rest ih =>
    show colVec x0.data :: rollout (fun a _ => a) (colVec x0.data) rest
      = List.replicate (rest.length + 1) x0
    rw [colVec_data_self hx0, ih, List.replicate_succ]


/-- One backward step at the no-op dynamics, a zero control, a zero `s` and
coincident state and target: the control Jacobian vanishes, `Quu = R`, and
the produced gains and the updated `s` are all zero. -/
lemma backwardStep_zero {c : ILQRSolver} {x0 S Ri : Mat}
    (hcs : CfgShape c) (hm : c.control_dim = 1) (hRwf : c.R.Wf)
    (hRi : gaussInv c.R = some Ri) (hx0 : IsVec c.state_dim x0)
    (hS1 : S.rows = c.state_dim) (hS2 : S.cols = c.state_dim) :
    ∃ S', c.backwardStep (fun a _ => a) x0 x0 (zeroM c.control_dim 1)
        (zeroM c.state_dim 1) S
      = .ok (zeroM c.control_dim c.state_dim, zeroM c.control_dim 1,
          zeroM c.state_dim 1, S')
      ∧ S'.rows = c.state_dim ∧ S'.cols = c.state_dim := by
  obtain ⟨hQ1, hQ2, hQf1, hQf2, hR1, hR2⟩ := hcs
  rw [hm] at hR1 hR2
  obtain ⟨hRi1, hRi2⟩ := gaussInv_shape hRi
  have hRi1' : Ri.rows = 1 := by rw [hRi1, hR1]
  have hRi2' : Ri.cols = 1 := by rw [hRi2, hR1]
  have hf : DynOK c (fun a _ => a) := fun a b ha _ => ha
  unfold ILQRSolver.backwardStep
  rw [jacobians_eq hf hx0.2.2 (by simp [zeroM])]
  set A := mkMat c.state_dim c.state_dim (fun r i =>
    ((x0.data.set i (x0.data.getD i 0 + EPSILON)).getD r 0 -
      (x0.data.set i (x0.data.getD i 0 - EPSILON)).getD r 0) / (2 * EPSILON)) with hAdef
  have hA1 : A.rows = c.state_dim := by rw [hAdef, rows_mkMat]
  have hA2 : A.cols = c.state_dim := by rw [hAdef, cols_mkMat]
  have hB0 : mkMat c.state_dim c.control_dim
      (fun r i => (x0.data.getD r 0 - x0.data.getD r 0) / (2 * EPSILON))
      = zeroM c.state_dim c.control_dim :=
    mkMat_eq_zeroM (fun r _ i _ => by rw [sub_self, zero_div])
  rw [hB0]
  simp only [ok_bind]
  have e1 : matSub x0 x0 = .ok (zeroM c.state_dim 1) := by
    rw [matSub_ok rfl rfl, msubP_self, hx0.1, hx0.2.1]
  have e2 : matMul c.Q (zeroM c.state_dim 1) = .ok (zeroM c.state_dim 1) := by
    rw [matMul_ok (by simp [hQ2]), mmulP_zero_right, hQ1]
  have e3 : matMul (zeroM c.state_dim 1).transpose A = .ok (zeroM 1 c.state_dim) := by
    rw [transpose_zeroM, matMul_ok (by simp [hA1]), mmulP_zero_left, hA2]
  have e4 : matAdd (zeroM c.state_dim 1) (zeroM 1 c.state_dim).transpose
      = .ok (zeroM c.state_dim 1) := by
    rw [transpose_zeroM, matAdd_ok (by simp) (by simp), maddP_zero_zero]
  have e5 : matMul c.R (zeroM c.control_dim 1) = .ok (zeroM c.control_dim 1) := by
    rw [hm, matMul_ok (by simp [hR2]), mmulP_zero_right, hR1]
  have e6 : matMul (zeroM c.state_dim 1).transpose (zeroM c.state_dim c.control_dim)
      = .ok (zeroM 1 c.control_dim) := by
    rw [transpose_zeroM, matMul_ok (by simp), mmulP_zero_left, cols_zeroM]
  have e7 : matAdd (zeroM c.control_dim 1) (zeroM 1 c.control_dim)
      = .ok (zeroM c.control_dim 1) := by
    rw [hm, matAdd_ok (by simp) (by simp), maddP_zero_zero]
  rw [e1, ok_bind, e2, ok_bind, e3, ok_bind, e4, ok_bind, e5, ok_bind, e6, ok_bind,
    e7, ok_bind]
  unfold ILQRSolver.quuTail
  have t1 : matMul A.transpose S = .ok (mmulP A.transpose S) :=
    matMul_ok (by simp [hA1, hS1])
  have t2 : matMul (mmulP A.transpose S) A = .ok (mmulP (mmulP A.transpose S) A) :=
    matMul_ok (by simp [hS2, hA1])
  have t3 : matAdd c.Q (mmulP (mmulP A.transpose S) A)
      = .ok (maddP c.Q (mmulP (mmulP A.transpose S) A)) :=
    matAdd_ok (by simp [hQ1, hA2]) (by simp [hQ2, hA2])
  have t4 : matMul (zeroM c.state_dim c.control_dim).transpose S
      = .ok (zeroM c.control_dim c.state_dim) := by
    rw [transpose_zeroM, matMul_ok (by simp [hS1]), mmulP_zero_left, hS2]
  have t5 : matMul (zeroM c.control_dim c.state_dim) (zeroM c.state_dim c.control_dim)
      = .ok (zeroM c.control_dim c.control_dim) := by
    rw [matMul_ok (by simp), mmulP_zero_left, cols_zeroM]
  have t6 : matAdd c.R (zeroM c.control_dim c.control_dim) = .ok c.R := by
    rw [hm, matAdd_ok (by simp [hR1]) (by simp [hR2]), maddP_zero_right hRwf]
  have t8 : matMul (zeroM c.control_dim c.state_dim) A
      = .ok (zeroM c.control_dim c.state_dim) := by
    rw [matMul_ok (by simp [hA1]), mmulP_zero_left, hA2]
  have t9 : tryInverseExpect c.R = .ok Ri :=
    tryInverseExpect_some (by rw [hR1, hR2]) hRi
  have t10 : matMul (mnegP Ri) (zeroM c.control_dim c.state_dim)
      = .ok (zeroM c.control_dim c.state_dim) := by
    rw [hm, matMul_ok (by simp [hRi2']), mmulP_zero_right, rows_mnegP, hRi1']
  have t11 : matMul (mnegP Ri) (zeroM c.control_dim 1) = .ok (zeroM c.control_dim 1) := by
    rw [hm, matMul_ok (by simp [hRi2']), mmulP_zero_right, rows_mnegP, hRi1']
  have t12 : matMul (zeroM c.control_dim c.state_dim).transpose c.R
      = .ok (zeroM c.state_dim c.control_dim) := by
    rw [hm, transpose_zeroM, matMul_ok (by simp [hR1]), mmulP_zero_left, hR2]
  have t13 : matMul (zeroM c.state_dim c.control_dim) (zeroM c.control_dim 1)
      = .ok (zeroM c.state_dim 1) := by
    rw [matMul_ok (by simp), mmulP_zero_left, cols_zeroM]
  have t14 : matAdd (zeroM c.state_dim 1) (zeroM c.state_dim 1)
      = .ok (zeroM c.state_dim 1) := by
    rw [matAdd_ok rfl rfl, maddP_zero_zero]
  have t15 : matMul (zeroM c.control_dim c.state_dim).transpose (zeroM c.control_dim 1)
      = .ok (zeroM c.state_dim 1) := by
    rw [transpose_zeroM, matMul_ok (by simp), mmulP_zero_left, cols_zeroM]
  have t19 : matMul (zeroM c.state_dim c.control_dim) (zeroM c.control_dim c.state_dim)
      = .ok (zeroM c.state_dim c.state_dim) := by
    rw [matMul_ok (by simp), mmulP_zero_left, cols_zeroM]
  have t20 : matAdd (maddP c.Q (mmulP (mmulP A.transpose S) A))
      (zeroM c.state_dim c.state_dim)
      = .ok (maddP (maddP c.Q (mmulP (mmulP A.transpose S) A))
          (zeroM c.state_dim c.state_dim)) :=
    matAdd_ok (by simp [hQ1]) (by simp [hQ2])
  have t23 : matMul (zeroM c.control_dim c.state_dim).transpose
      (zeroM c.control_dim c.state_dim) = .ok (zeroM c.state_dim c.state_dim) := by
    rw [transpose_zeroM, matMul_ok (by simp), mmulP_zero_left, cols_zeroM]
  have t22 : matAdd (maddP (maddP c.Q (mmulP (mmulP A.transpose S) A))
      (zeroM c.state_dim c.state_dim)) (zeroM c.state_dim c.state_dim)
      = .ok (maddP (maddP (maddP c.Q (mmulP (mmulP A.transpose S) A))
          (zeroM c.state_dim c.state_dim)) (zeroM c.state_dim c.state_dim)) :=
    matAdd_ok (by simp [hQ1]) (by simp [hQ2])
  have t24 : matAdd (maddP (maddP (maddP c.Q (mmulP (mmulP A.transpose S) A))
      (zeroM c.state_dim c.state_dim)) (zeroM c.state_dim c.state_dim))
      (zeroM c.state_dim c.state_dim)
      = .ok (maddP (maddP (maddP (maddP c.Q (mmulP (mmulP A.transpose S) A))
          (zeroM c.state_dim c.state_dim)) (zeroM c.state_dim c.state_dim))
          (zeroM c.state_dim c.state_dim)) :=
    matAdd_ok (by simp [hQ1]) (by simp [hQ2])
  refine ⟨maddP (maddP (maddP (maddP c.Q (mmulP (mmulP A.transpose S) A))
      (zeroM c.state_dim c.state_dim)) (zeroM c.state_dim c.state_dim))
      (zeroM c.state_dim c.state_dim), ?_, by simp [hQ1], by simp [hQ2]⟩
  rw [t1, ok_bind, t2, ok_bind, t3, ok_bind, t4, ok_bind, t5, ok_bind, t6, ok_bind]
  rw [ok_bind, t8, ok_bind, t9, ok_bind, t10, ok_bind, t11, ok_bind]
  rw [t12, ok_bind, t13, ok_bind, t14, ok_bind, t15, ok_bind]
  rw [t14, ok_bind, ok_bind, t14, ok_bind, t19, ok_bind, t20, ok_bind, t23, ok_bind]
  rw [t22, ok_bind, ok_bind, t24, ok_bind, pure_eq_ok]

/-- The backward pass on the constant trajectory of the no-op dynamics, zero
controls and coincident target: it succeeds (given `R` invertible) and every
produced gain is zero. -/
lemma backward_noop {c : ILQRSolver} {x0 Ri : Mat} {T : Nat}
    (hcs : CfgShape c) (hm : c.control_dim = 1) (hRwf : c.R.Wf)
    (hRi : gaussInv c.R = some Ri) (hx0 : IsVec c.state_dim x0) :
    ∃ Ks ds : List Mat,
      c.backward (List.replicate (T + 1) x0) (List.replicate T (zeroM c.control_dim 1))
        x0 (fun a _ => a) = .ok (Ks, ds) ∧
      Ks.length = T + 1 ∧ ds.length = T + 1 ∧
      (∀ K ∈ Ks, K = zeroM c.control_dim c.state_dim) ∧
      (∀ d ∈ ds, d = zeroM c.control_dim 1) := by
  obtain ⟨hQ1, hQ2, hQf1, hQf2, hR1, hR2⟩ := hcs
  have hne : (List.replicate (T + 1) x0) ≠ [] := by simp
  obtain ⟨xT, hlast, hmem⟩ := lastUnwrap_ok hne
  have hxT : xT = x0 := List.eq_of_mem_replicate hmem
  rw [hxT] at hlast
  unfold ILQRSolver.backward
  rw [hlast]
  simp only [ok_bind]
  have e1 : matSub x0 x0 = .ok (zeroM c.state_dim 1) := by
    rw [matSub_ok rfl rfl, msubP_self, hx0.1, hx0.2.1]
  have e2 : matMul c.Qf (zeroM c.state_dim 1) = .ok (zeroM c.state_dim 1) := by
    rw [matMul_ok (by simp [hQf2]), mmulP_zero_right, hQf1]
  rw [e1, ok_bind, e2, ok_bind]
  have hlen : (List.replicate (T + 1) x0).length = T + 1 := by simp
  have hfold := foldE_total
    (g := fun (st : Mat × Mat × List Mat × List Mat) i => do
      let r ← c.backwardStep (fun a _ => a) x0
        ((List.replicate (T + 1) x0).getD i default)
        ((List.replicate T (zeroM c.control_dim 1)).getD i default) st.1 st.2.1
      Except.ok (r.2.2.1, r.2.2.2, st.2.2.1.set i r.1, st.2.2.2.set i r.2.1))
    (P := fun st : Mat × Mat × List Mat × List Mat =>
      st.1 = zeroM c.state_dim 1 ∧ st.2.1.rows = c.state_dim ∧ st.2.1.cols = c.state_dim ∧
        st.2.2.1.length = T + 1 ∧ (∀ K ∈ st.2.2.1, K = zeroM c.control_dim c.state_dim) ∧
        st.2.2.2.length = T + 1 ∧ (∀ d ∈ st.2.2.2, d = zeroM c.control_dim 1))
    (l := (List.range ((List.replicate (T + 1) x0).length - 1)).reverse)
    (s := (zeroM c.state_dim 1, c.Qf,
      List.replicate (T + 1) x0 |>.length |> (fun L => List.replicate L (zeroM c.control_dim c.state_dim)),
      List.replicate ((List.replicate (T + 1) x0).length) (zeroM c.control_dim 1)))
    ?step ?init
  case init =>
    refine ⟨rfl, hQf1, hQf2, by simp, ?_, by simp, ?_⟩
    · intro K hK
      exact List.eq_of_mem_replicate hK
    · intro d hd
      exact List.eq_of_mem_replicate hd
  case step =>
    intro a ha st hP
    have ha1 : a < T := by
      have := List.mem_range.mp (List.mem_reverse.mp ha)
      omega
    have hxa : (List.replicate (T + 1) x0).getD a default = x0 :=
      getD_replicate_lt _ _ _ _ (by omega)
    have hua : (List.replicate T (zeroM c.control_dim 1)).getD a default
        = zeroM c.control_dim 1 := getD_replicate_lt _ _ _ _ ha1
    obtain ⟨S', hstep, hS'1, hS'2⟩ := backwardStep_zero (S := st.2.1)
      ⟨hQ1, hQ2, hQf1, hQf2, hR1, hR2⟩ hm hRwf hRi hx0 hP.2.1 hP.2.2.1
    refine ⟨(zeroM c.state_dim 1, S', st.2.2.1.set a (zeroM c.control_dim c.state_dim),
      st.2.2.2.set a (zeroM c.control_dim 1)), ?_, rfl, hS'1, hS'2, ?_, ?_, ?_, ?_⟩
    · dsimp only
      rw [hxa, hua, hP.1, hstep, ok_bind]
    · rw [List.length_set]
      exact hP.2.2.2.1
    · intro K hK
      rcases mem_set_cases hK with h' | h'
      · exact h'
      · exact hP.2.2.2.2.1 K h'
    · rw [List.length_set]
      exact hP.2.2.2.2.2.1
    · intro d hd
      rcases mem_set_cases hd with h' | h'
      · exact h'
      · exact hP.2.2.2.2.2.2 d h'
  obtain ⟨sF, hF, hPF⟩ := hfold
  rw [hF, ok_bind, pure_eq_ok]
  exact ⟨sF.2.2.1, sF.2.2.2, rfl, hPF.2.2.2.1, hPF.2.2.2.2.2.1,
    hPF.2.2.2.2.1, hPF.2.2.2.2.2.2⟩

/-- The update loop with all-zero gains, the no-op dynamics and a constant
trajectory equal to the initial state: the controls and corrections stay
zero. -/
lemma updatePhase_noop {c : ILQRSolver} {x0 : Mat} {T : Nat} {Ks ds xs0 : List Mat}
    (hx0 : IsVec c.state_dim x0)
    (hKs : ∀ K ∈ Ks, K = zeroM c.control_dim c.state_dim)
    (hds : ∀ d ∈ ds, d = zeroM c.control_dim 1)
    (hKlen : T ≤ Ks.length) (hdlen : T ≤ ds.length)
    (hxs : ∀ v ∈ xs0, v = x0) (hxlen : T ≤ xs0.length) :
    ∃ xs', c.updatePhase (fun a _ => a) x0 Ks ds T
      (List.replicate T (zeroM c.control_dim 1)) xs0
      = .ok (List.replicate T (zeroM c.control_dim 1),
          List.replicate T (zeroM c.control_dim 1), xs') := by
  unfold ILQRSolver.updatePhase
  have hfold := foldE_total
    (g := fun (st : Mat × List Mat × List Mat × List Mat) i => do
      let dx ← matSub st.1 (st.2.2.2.getD i default)
      let Kdx ← matMul (Ks.getD i default) dx
      let du ← matAdd Kdx (ds.getD i default)
      let usi ← matAdd (st.2.1.getD i default) du
      let us' := st.2.1.set i usi
      let dus' := st.2.2.1.set i du
      let x' := colVec ((fun (a : List ℚ) (_ : List ℚ) => a) st.1.data usi.data)
      let xs' := st.2.2.2.set i x'
      Except.ok (x', us', dus', xs'))
    (P := fun st : Mat × List Mat × List Mat × List Mat =>
      st.1 = x0 ∧ st.2.1 = List.replicate T (zeroM c.control_dim 1) ∧
        st.2.2.1 = List.replicate T (zeroM c.control_dim 1) ∧
        st.2.2.2.length = xs0.length ∧ (∀ v ∈ st.2.2.2, v = x0))
    (l := List.range T)
    (s := (x0, List.replicate T (zeroM c.control_dim 1),
      List.replicate T (zeroM c.control_dim 1), xs0))
    ?step ?init
  case init => exact ⟨rfl, rfl, rfl, rfl, hxs⟩
  case step =>
    intro i hi st hP
    have hiT : i < T := List.mem_range.mp hi
    have hxsi : st.2.2.2.getD i default = x0 :=
      hP.2.2.2.2 _ (getD_mem default (by rw [hP.2.2.2.1]; omega))
    have hKi : Ks.getD i default = zeroM c.control_dim c.state_dim :=
      hKs _ (getD_mem default (by omega))
    have hdi : ds.getD i default = zeroM c.control_dim 1 :=
      hds _ (getD_mem default (by omega))
    have husi : st.2.1.getD i default = zeroM c.control_dim 1 := by
      rw [hP.2.1]
      exact getD_replicate_lt _ _ _ _ hiT
    have e1 : matSub x0 x0 = .ok (zeroM c.state_dim 1) := by
      rw [matSub_ok rfl rfl, msubP_self, hx0.1, hx0.2.1]
    have e2 : matMul (zeroM c.control_dim c.state_dim) (zeroM c.state_dim 1)
        = .ok (zeroM c.control_dim 1) := by
      rw [matMul_ok (by simp), mmulP_zero_left, cols_zeroM]
    have e3 : matAdd (zeroM c.control_dim 1) (zeroM c.control_dim 1)
        = .ok (zeroM c.control_dim 1) := by
      rw [matAdd_ok rfl rfl, maddP_zero_zero]
    refine ⟨(x0, st.2.1.set i (zeroM c.control_dim 1),
      st.2.2.1.set i (zeroM c.control_dim 1), st.2.2.2.set i x0),
      ?_, rfl, ?_, ?_, ?_, ?_⟩
    · dsimp only
      rw [hP.1, hxsi, hKi, hdi, husi, e1, ok_bind, e2, ok_bind, e3, ok_bind, e3, ok_bind]
      rw [colVec_data_self hx0]
    · rw [hP.2.1, set_replicate]
    · rw [hP.2.2.1, set_replicate]
    · rw [List.length_set]
      exact hP.2.2.2.1
    · intro v hv
      rcases mem_set_cases hv with h' | h'
      · exact h'
      · exact hP.2.2.2.2 v h'
  obtain ⟨sF, hF, hPF⟩ := hfold
  rw [hF, ok_bind, pure_eq_ok]
  exact ⟨sF.2.2.2, by rw [hPF.2.1, hPF.2.2.1]⟩

/-- One whole `solve` iteration from the zero control sequence, with no-op
dynamics, coincident initial state and target and invertible `R`: the
controls and the corrections come back zero. -/
lemma solveIter_noop {c : ILQRSolver} {x0 Ri : Mat} {T : Nat}
    (hcs : CfgShape c) (hm : c.control_dim = 1) (hRwf : c.R.Wf)
    (hRi : gaussInv c.R = some Ri) (hx0 : IsVec c.state_dim x0) :
    ∃ xs', c.solveIter x0 x0 (fun a _ => a) T (List.replicate T (zeroM c.control_dim 1))
      = .ok (List.replicate T (zeroM c.control_dim 1),
          List.replicate T (zeroM c.control_dim 1), xs') := by
  have hf : DynOK c (fun a _ => a) := fun a b ha _ => ha
  have hus : ∀ v ∈ List.replicate T (zeroM c.control_dim 1), IsVec 1 v := by
    intro v hv
    rw [List.eq_of_mem_replicate hv]
    exact ⟨by simp [hm], rfl, by simp [zeroM, hm]⟩
  have hfw := forward_eq hcs hm hf hx0.1 hx0.2.1 hx0 hus
  have htr : trajSpec (fun a _ => a) x0 (List.replicate T (zeroM c.control_dim 1))
      = List.replicate (T + 1) x0 := by
    unfold trajSpec
    rw [rollout_noop hx0, List.length_replicate, List.replicate_succ]
  obtain ⟨Ks, ds, hbw, hKlen, hdlen, hKz, hdz⟩ := backward_noop (T := T) hcs hm hRwf hRi hx0
  obtain ⟨xs', hupd⟩ := @updatePhase_noop c x0 T Ks ds
    (List.replicate (T + 1) x0) hx0 hKz hdz (by omega) (by omega)
    (fun v hv => List.eq_of_mem_replicate hv) (by simp)
  refine ⟨xs', ?_⟩
  unfold ILQRSolver.solveIter
  rw [hfw, ok_bind]
  dsimp only
  rw [htr, hbw, ok_bind]
  dsimp only
  exact hupd

/-- The whole iteration loop preserves the zero control sequence under the
no-op dynamics with coincident initial state and target. -/
lemma solveLoop_noop {c : ILQRSolver} {x0 Ri : Mat} {T : Nat} {thr : ℚ} {sq : ℚ → ℚ}
    (hcs : CfgShape c) (hm : c.control_dim = 1) (hRwf : c.R.Wf)
    (hRi : gaussInv c.R = some Ri) (hx0 : IsVec c.state_dim x0) :
    ∀ k : Nat, ∃ cnt : Nat,
      c.solveLoop x0 x0 (fun a _ => a) T sq thr k
        (List.replicate T (zeroM c.control_dim 1))
        = .ok (List.replicate T (zeroM c.control_dim 1), cnt) := by
  intro k
  induction k with
  | zero => exact ⟨0, rfl⟩
  | succ j ih =>
    obtain ⟨xs', hit⟩ := solveIter_noop (T := T) hcs hm hRwf hRi hx0
    obtain ⟨cnt, hloop⟩ := ih
    simp only [ILQRSolver.solveLoop]
    rw [hit, ok_bind]
    dsimp only
    by_cases hc : iterNorm sq (List.replicate T (zeroM c.control_dim 1)) < thr
    · rw [if_pos hc]
      exact ⟨1, rfl⟩
    · rw [if_neg hc, hloop, ok_bind]
      exact ⟨cnt + 1, rfl⟩

/-- The state reached by the control-update loop of `solve` after `t` steps,
re-simulated from `x0`: at each step the correction uses the gains and the
pre-update trajectory `xs0`, the control is updated, and the next state is
the dynamics applied to the current state and the updated control. -/
def updState (f : Dyn) (Ks ds xs0 us0 : List Mat) (x0 : Mat) : Nat → Mat
  | 0 => x0
  | t + 1 =>
    let x := updState f Ks ds xs0 us0 x0 t
    let du := maddP (mmulP (Ks.getD t default) (msubP x (xs0.getD t default)))
      (ds.getD t default)
    colVec (f x.data (maddP (us0.getD t default) du).data)

/-- The correction `δu_t = K_t·(x - xs[t]) + d_t` the update loop computes at
step `t`, with `x` the re-simulated state `updState t`. -/
def updDu (f : Dyn) (Ks ds xs0 us0 : List Mat) (x0 : Mat) (t : Nat) : Mat :=
  maddP (mmulP (Ks.getD t default)
    (msubP (updState f Ks ds xs0 us0 x0 t) (xs0.getD t default))) (ds.getD t default)

/-- The updated control `us[t] + δu_t` the update loop stores at step `t`. -/
def updCtrl (f : Dyn) (Ks ds xs0 us0 : List Mat) (x0 : Mat) (t : Nat) : Mat :=
  maddP (us0.getD t default) (updDu f Ks ds xs0 us0 x0 t)

lemma updState_succ (f : Dyn) (Ks ds xs0 us0 : List Mat) (x0 : Mat) (t : Nat) :
    updState f Ks ds xs0 us0 x0 (t + 1)
      = colVec (f (updState f Ks ds xs0 us0 x0 t).data
          (updCtrl f Ks ds xs0 us0 x0 t).data) := rfl

lemma updState_isVec {c : ILQRSolver} {f : Dyn} {Ks ds xs0 us0 : List Mat} {x0 : Mat}
    {T : Nat} (hf : DynOK c f) (hx0 : IsVec c.state_dim x0)
    (hus0 : ∀ v ∈ us0, IsVec c.control_dim v) (hTu : T ≤ us0.length) :
    ∀ k, k ≤ T → IsVec c.state_dim (updState f Ks ds xs0 us0 x0 k) := by
  intro k
  induction k with
  | zero => exact fun _ => hx0
  | succ j ih =>
    intro hj
    have hx := ih (by omega)
    have hu : IsVec c.control_dim (us0.getD j default) :=
      hus0 _ (getD_mem default (by omega))
    rw [updState_succ]
    apply isVec_colVec
    apply hf
    · exact hx.2.2
    · show (maddP (us0.getD j default) _).data.length = c.control_dim
      unfold maddP
      rw [data_length_mkMat, hu.1, hu.2.1, Nat.mul_one]

/-- The control-update loop of `solve`, fully characterized: after `k` steps
the running state is `updState k`, and for every processed index `t` the
stored control, correction and trajectory entry are `updCtrl t`, `updDu t`
and `updState (t+1)` — the new state is recorded at index `t`, not `t + 1`;
unprocessed indices keep their initial values. -/
lemma updatePhase_fold {c : ILQRSolver} {f : Dyn} {Ks ds xs0 us0 dus0 : List Mat}
    {x0 : Mat} {T : Nat}
    (hf : DynOK c f) (hx0 : IsVec c.state_dim x0)
    (hus0 : ∀ v ∈ us0, IsVec c.control_dim v)
    (hxs0 : ∀ v ∈ xs0, IsVec c.state_dim v)
    (hKs : ∀ K ∈ Ks, K.rows = c.control_dim ∧ K.cols = c.state_dim)
    (hds : ∀ v ∈ ds, IsVec c.control_dim v)
    (hTu : T ≤ us0.length) (hTx : T ≤ xs0.length) (hTK : T ≤ Ks.length)
    (hTd : T ≤ ds.length) (hTdus : T ≤ dus0.length) :
    ∀ k, k ≤ T → ∃ st : Mat × List Mat × List Mat × List Mat,
      foldE (fun (st : Mat × List Mat × List Mat × List Mat) i => do
          let dx ← matSub st.1 (st.2.2.2.getD i default)
          let Kdx ← matMul (Ks.getD i default) dx
          let du ← matAdd Kdx (ds.getD i default)
          let usi ← matAdd (st.2.1.getD i default) du
          let us' := st.2.1.set i usi
          let dus' := st.2.2.1.set i du
          let x' := colVec (f st.1.data usi.data)
          let xs' := st.2.2.2.set i x'
          Except.ok (x', us', dus', xs'))
        (x0, us0, dus0, xs0) (List.range k) = .ok st ∧
      st.1 = updState f Ks ds xs0 us0 x0 k ∧
      st.2.1.length = us0.length ∧ st.2.2.1.length = dus0.length ∧
      st.2.2.2.length = xs0.length ∧
      (∀ t, t < k → st.2.1.getD t default = updCtrl f Ks ds xs0 us0 x0 t ∧
        st.2.2.1.getD t default = updDu f Ks ds xs0 us0 x0 t ∧
        st.2.2.2.getD t default = updState f Ks ds xs0 us0 x0 (t + 1)) ∧
      (∀ t, k ≤ t → st.2.1.getD t default = us0.getD t default ∧
        st.2.2.1.getD t default = dus0.getD t default ∧
        st.2.2.2.getD t default = xs0.getD t default) := by
  intro k
  induction k with
  | zero =>
    intro _
    exact ⟨(x0, us0, dus0, xs0), rfl, rfl, rfl, rfl, rfl,
      fun t ht => absurd ht (by omega), fun t _ => ⟨rfl, rfl, rfl⟩⟩
  | succ j ih =>
    intro hj
    obtain ⟨st, hF, h1, h2, h3, h4, h5, h6⟩ := ih (by omega)
    have hx : IsVec c.state_dim (updState f Ks ds xs0 us0 x0 j) :=
      updState_isVec hf hx0 hus0 hTu j (by omega)
    have husj : IsVec c.control_dim (us0.getD j default) :=
      hus0 _ (getD_mem default (by omega))
    have hxsj : IsVec c.state_dim (xs0.getD j default) :=
      hxs0 _ (getD_mem default (by omega))
    have hKj : (Ks.getD j default).rows = c.control_dim ∧
        (Ks.getD j default).cols = c.state_dim :=
      hKs _ (getD_mem default (by omega))
    have hdj : IsVec c.control_dim (ds.getD j default) :=
      hds _ (getD_mem default (by omega))
    have e1 : matSub (updState f Ks ds xs0 us0 x0 j) (xs0.getD j default)
        = .ok (msubP (updState f Ks ds xs0 us0 x0 j) (xs0.getD j default)) :=
      matSub_ok (by rw [hx.1, hxsj.1]) (by rw [hx.2.1, hxsj.2.1])
    have e2 : matMul (Ks.getD j default)
        (msubP (updState f Ks ds xs0 us0 x0 j) (xs0.getD j default))
        = .ok (mmulP (Ks.getD j default)
          (msubP (updState f Ks ds xs0 us0 x0 j) (xs0.getD j default))) :=
      matMul_ok (by rw [rows_msubP, hx.1, hKj.2])
    have e3 : matAdd (mmulP (Ks.getD j default)
        (msubP (updState f Ks ds xs0 us0 x0 j) (xs0.getD j default)))
        (ds.getD j default)
        = .ok (updDu f Ks ds xs0 us0 x0 j) :=
      matAdd_ok (by rw [rows_mmulP, hKj.1, hdj.1])
        (by rw [cols_mmulP, cols_msubP, hx.2.1, hdj.2.1])
    have e4 : matAdd (us0.getD j default) (updDu f Ks ds xs0 us0 x0 j)
        = .ok (updCtrl f Ks ds xs0 us0 x0 j) := by
      apply matAdd_ok
      · show (us0.getD j default).rows = (updDu f Ks ds xs0 us0 x0 j).rows
        unfold updDu
        rw [rows_maddP, rows_mmulP, husj.1, hKj.1]
      · show (us0.getD j default).cols = (updDu f Ks ds xs0 us0 x0 j).cols
        unfold updDu
        rw [cols_maddP, cols_mmulP, cols_msubP, husj.2.1, hx.2.1]
    refine ⟨(updState f Ks ds xs0 us0 x0 (j + 1),
      st.2.1.set j (updCtrl f Ks ds xs0 us0 x0 j),
      st.2.2.1.set j (updDu f Ks ds xs0 us0 x0 j),
      st.2.2.2.set j (updState f Ks ds xs0 us0 x0 (j + 1))),
      ?_, rfl, ?_, ?_, ?_, ?_, ?_⟩
    · rw [List.range_succ, foldE_append, hF, ok_bind, foldE_singleton]
      dsimp only
      rw [h1, (h6 j (by omega)).1, (h6 j (by omega)).2.2]
      rw [e1, ok_bind, e2, ok_bind, e3, ok_bind, e4, ok_bind]
      rw [updState_succ]
    · rw [List.length_set]
      exact h2
    · rw [List.length_set]
      exact h3
    · rw [List.length_set]
      exact h4
    · intro t ht
      by_cases htj : t = j
      · subst htj
        exact ⟨getD_set_self _ _ _ _ (by omega),
          getD_set_self _ _ _ _ (by omega),
          getD_set_self _ _ _ _ (by omega)⟩
      · have ht' : t < j := by omega
        obtain ⟨p1, p2, p3⟩ := h5 t ht'
        exact ⟨by rw [getD_set_ne _ _ _ _ _ (by omega)]; exact p1,
          by rw [getD_set_ne _ _ _ _ _ (by omega)]; exact p2,
          by rw [getD_set_ne _ _ _ _ _ (by omega)]; exact p3⟩
    · intro t ht
      obtain ⟨p1, p2, p3⟩ := h6 t (by omega)
      exact ⟨by rw [getD_set_ne _ _ _ _ _ (by omega)]; exact p1,
        by rw [getD_set_ne _ _ _ _ _ (by omega)]; exact p2,
        by rw [getD_set_ne _ _ _ _ _ (by omega)]; exact p3⟩

/-- The update loop keeps the control sequence's length and per-entry shape. -/
lemma updatePhase_us {c : ILQRSolver} {f : Dyn} {x0 : Mat}
    {Ks ds us0 xs0 us' dus' xs' : List Mat} {T : Nat}
    (hus0 : ∀ v ∈ us0, v.rows = c.control_dim ∧ v.cols = 1)
    (hT : T ≤ us0.length)
    (h : c.updatePhase f x0 Ks ds T us0 xs0 = .ok (us', dus', xs')) :
    us'.length = us0.length ∧ ∀ v ∈ us', v.rows = c.control_dim ∧ v.cols = 1 := by
  unfold ILQRSolver.updatePhase at h
  rcases bind_eq_ok.mp h with ⟨stF, hstF, h⟩
  rw [pure_eq_ok] at h
  have hus : stF.2.1 = us' := congrArg (fun p => p.1) (Except.ok.inj h)
  have hinv := foldE_ok_inv
    (g := fun (st : Mat × List Mat × List Mat × List Mat) i => do
      let dx ← matSub st.1 (st.2.2.2.getD i default)
      let Kdx ← matMul (Ks.getD i default) dx
      let du ← matAdd Kdx (ds.getD i default)
      let usi ← matAdd (st.2.1.getD i default) du
      let us' := st.2.1.set i usi
      let dus' := st.2.2.1.set i du
      let x' := colVec (f st.1.data usi.data)
      let xs' := st.2.2.2.set i x'
      Except.ok (x', us', dus', xs'))
    (P := fun st : Mat × List Mat × List Mat × List Mat =>
      st.2.1.length = us0.length ∧ ∀ v ∈ st.2.1, v.rows = c.control_dim ∧ v.cols = 1)
    (l := List.range T)
    (s := (x0, us0, List.replicate T (zeroM c.control_dim 1), xs0))
    ?hstep ⟨rfl, hus0⟩ hstF
  case hstep =>
    intro i hi t t' hP hg
    have hiT : i < T := List.mem_range.mp hi
    dsimp only at hg
    rcases bind_eq_ok.mp hg with ⟨dx, hdx, hg⟩
    rcases bind_eq_ok.mp hg with ⟨Kdx, hKdx, hg⟩
    rcases bind_eq_ok.mp hg with ⟨du, hdu, hg⟩
    rcases bind_eq_ok.mp hg with ⟨usi, husi, hg⟩
    obtain ⟨_, _, husiv⟩ := matAdd_eq_ok husi
    have ht' := Except.ok.inj hg
    rw [← ht']
    have husti : (t.2.1.getD i default).rows = c.control_dim ∧
        (t.2.1.getD i default).cols = 1 :=
      hP.2 _ (getD_mem default (by rw [hP.1]; omega))
    refine ⟨?_, ?_⟩
    · show (t.2.1.set i usi).length = us0.length
      rw [List.length_set]
      exact hP.1
    · intro v hv
      rcases mem_set_cases hv with h' | h'
      · rw [h', husiv]
        exact ⟨by rw [rows_maddP]; exact husti.1, by rw [cols_maddP]; exact husti.2⟩
      · exact hP.2 v h'
  dsimp only at hinv
  rw [hus] at hinv
  exact hinv

/-- One `solve` iteration keeps the control sequence's length and shape. -/
lemma solveIter_us {c : ILQRSolver} {f : Dyn} {x0 target : Mat} {us0 : List Mat}
    {T : Nat} {r : List Mat × List Mat × List Mat}
    (hus0 : ∀ v ∈ us0, v.rows = c.control_dim ∧ v.cols = 1) (hT : T ≤ us0.length)
    (h : c.solveIter x0 target f T us0 = .ok r) :
    r.1.length = us0.length ∧ ∀ v ∈ r.1, v.rows = c.control_dim ∧ v.cols = 1 := by
  unfold ILQRSolver.solveIter at h
  rcases bind_eq_ok.mp h with ⟨fwd, hfwd, h⟩
  rcases bind_eq_ok.mp h with ⟨bwd, hbwd, h⟩
  obtain ⟨ru, rd, rx⟩ := r
  exact updatePhase_us hus0 hT h

/-- The iteration loop of `solve` keeps the control sequence's length and
shape, whether it breaks early or exhausts its iteration budget. -/
lemma solveLoop_us {c : ILQRSolver} {f : Dyn} {x0 target : Mat} {sq : ℚ → ℚ}
    {thr : ℚ} {T : Nat} :
    ∀ (k : Nat) (us0 : List Mat) (p : List Mat × Nat),
      (∀ v ∈ us0, v.rows = c.control_dim ∧ v.cols = 1) → T = us0.length →
      c.solveLoop x0 target f T sq thr k us0 = .ok p →
      p.1.length = T ∧ ∀ v ∈ p.1, v.rows = c.control_dim ∧ v.cols = 1 := by
  intro k
  induction k with
  | zero =>
    intro us0 p hus0 hT h
    have hp : (us0, 0) = p := Except.ok.inj h
    rw [← hp]
    exact ⟨hT.symm, hus0⟩
  | succ j ih =>
    intro us0 p hus0 hT h
    simp only [ILQRSolver.solveLoop] at h
    rcases bind_eq_ok.mp h with ⟨r, hr, h⟩
    obtain ⟨hrl, hrs⟩ := solveIter_us hus0 (by omega) hr
    split at h
    · have hp : (r.1, 1) = p := Except.ok.inj h
      rw [← hp]
      refine ⟨?_, hrs⟩
      show r.1.length = T
      omega
    · rcases bind_eq_ok.mp h with ⟨rest, hrest, h⟩
      obtain ⟨hl, hs⟩ := ih r.1 rest hrs (by omega) hrest
      have hp : (rest.1, rest.2 + 1) = p := Except.ok.inj h
      rw [← hp]
      exact ⟨hl, hs⟩

/-- The specification trajectory satisfies the recurrence
`xs[t+1] = f(xs[t], us[t])`. -/
lemma trajSpec_getD_succ (f : Dyn) :
    ∀ (us : List Mat) (x0 : Mat) (t : Nat), t < us.length →
      (trajSpec f x0 us).getD (t + 1) default
        = colVec (f ((trajSpec f x0 us).getD t default).data
            ((us.getD t default)).data) := by
  intro us
  induction us with
  | nil =>
    intro x0 t ht
    simp at ht
  | cons u rest ih =>
    intro x0 t ht
    cases t with
    | zero => rfl
    | succ t' =>
      have h1 : trajSpec f x0 (u :: rest)
          = x0 :: trajSpec f (colVec (f x0.data u.data)) rest := rfl
      rw [h1]
      show (trajSpec f (colVec (f x0.data u.data)) rest).getD (t' + 1) default = _
      rw [ih (colVec (f x0.data u.data)) t' (by simpa using ht)]
      rfl

/-- A concrete `1 × 1` matrix holding `1`, for the concrete scenarios. -/
def one11 : Mat := Mat.mk 1 1 [1]

/-- A concrete `1 × 1` matrix holding `0`. -/
def null11 : Mat := Mat.mk 1 1 [0]

/-- A one-state, one-control solver with identity costs. -/
def cUnit : ILQRSolver := ILQRSolver.new 1 1 one11 one11 one11

/-- A one-state, one-control solver with `R = 0`, making `Quu = R + BᵀSB`
singular under the no-op dynamics. -/
def cRzero : ILQRSolver := ILQRSolver.new 1 1 one11 one11 null11

/-- A one-state, two-control solver. -/
def cWide : ILQRSolver := ILQRSolver.new 1 2 one11 one11 (Mat.mk 2 2 [1, 0, 0, 1])

/-- The scalar dynamics `f(x, u) = x + u`. -/
def sumDyn : Dyn := fun x u => [x.getD 0 0 + u.getD 0 0]

/-- Claim C1: the specification requires a non-invertible `Quu` to surface as
an explicit failure result rather than a crash, but the code calls
`try_inverse().expect("the matrix Quu is not invertible")`, which panics the
process.  On the concrete input with `R = 0` and the no-op dynamics (so
`Quu = 0` at the first backward step), `solve` ends in the modelled panic
outcome — the `expect` crash — not in an error value designed for the
caller, refuting the claimed error-surfacing behaviour. -/
theorem solve_singular_quu_panics :
    cRzero.solve (colVec [0]) (colVec [1]) (fun a _ => a) 1 1 1 id
      = .error (RtError.panicked "the matrix Quu is not invertible") := by
  with_unfolding_all decide

/-- Claim C2 (amended): in every outer iteration the update phase
re-simulates from `x = x0` and, for each `t < time_steps`, computes
`δu_t = K_t·(x − xs[t]) + d_t` (that is `updDu t`), adds it to `us[t]`
(giving `updCtrl t`), and steps `x = f(x, us[t])` (giving `updState (t+1)`)
— but it records this new state into `xs[t]`, NOT `xs[t+1]` as the original
claim states: entry `t` of the returned trajectory holds `updState (t+1)`,
and entries at indices `≥ time_steps` (in particular the last one) are left
untouched. -/
theorem updatePhase_records_state_at_t {c : ILQRSolver} {f : Dyn}
    {Ks ds xs0 us0 : List Mat} {x0 : Mat} {T : Nat}
    (hf : DynOK c f) (hx0 : IsVec c.state_dim x0)
    (hus0 : ∀ v ∈ us0, IsVec c.control_dim v)
    (hxs0 : ∀ v ∈ xs0, IsVec c.state_dim v)
    (hKs : ∀ K ∈ Ks, K.rows = c.control_dim ∧ K.cols = c.state_dim)
    (hds : ∀ v ∈ ds, IsVec c.control_dim v)
    (hTu : T ≤ us0.length) (hTx : T ≤ xs0.length) (hTK : T ≤ Ks.length)
    (hTd : T ≤ ds.length) :
    ∃ us' dus' xs', c.updatePhase f x0 Ks ds T us0 xs0 = .ok (us', dus', xs') ∧
      us'.length = us0.length ∧ dus'.length = T ∧ xs'.length = xs0.length ∧
      (∀ t, t < T → us'.getD t default = updCtrl f Ks ds xs0 us0 x0 t ∧
        dus'.getD t default = updDu f Ks ds xs0 us0 x0 t ∧
        xs'.getD t default = updState f Ks ds xs0 us0 x0 (t + 1)) ∧
      (∀ t, T ≤ t → us'.getD t default = us0.getD t default ∧
        xs'.getD t default = xs0.getD t default) := by
  obtain ⟨st, hF, h1, h2, h3, h4, h5, h6⟩ :=
    @updatePhase_fold c f Ks ds xs0 us0 (List.replicate T (zeroM c.control_dim 1))
      x0 T hf hx0 hus0 hxs0 hKs hds hTu hTx hTK hTd (by simp) T le_rfl
  refine ⟨st.2.1, st.2.2.1, st.2.2.2, ?_, h2, by rw [h3]; simp, h4, h5, ?_⟩
  · unfold ILQRSolver.updatePhase
    rw [hF, ok_bind, pure_eq_ok]
  · intro t ht
    obtain ⟨p1, _, p3⟩ := h6 t ht
    exact ⟨p1, p3⟩

/-- Claim C2, counterexample: with `f(x, u) = x + u`, `x0 = 0`, target `1`
and one timestep, the update phase stores the newly reached state `1/2` into
`xs[0]` (overwriting the re-simulation start), while `xs[1]` keeps the stale
forward-pass value `0`; the claim's `xs[t+1] = f(x, us[t])` would require
`xs[1] = 1/2`. -/
theorem updatePhase_cex_not_at_succ :
    cUnit.solveIter (colVec [0]) (colVec [1]) sumDyn 1 [zeroM 1 1]
      = .ok ([colVec [1/2]], [colVec [1/2]], [colVec [1/2], colVec [0]])
    ∧ colVec [(0 : ℚ)]
      ≠ colVec (sumDyn (colVec [(0 : ℚ)]).data (colVec [(1 : ℚ)/2]).data) := by
  constructor
  · with_unfolding_all decide
  · with_unfolding_all decide

/-- Claim C2, witness for the amended statement: the concrete one-step
scenario with unit gains. -/
theorem updatePhase_records_state_at_t_witness :
    ∃ us' dus' xs', cUnit.updatePhase sumDyn (colVec [0]) [one11] [one11] 1
        [zeroM 1 1] [colVec [0], colVec [0]] = .ok (us', dus', xs') ∧
      us'.length = 1 ∧ dus'.length = 1 ∧ xs'.length = 2 ∧
      (∀ t, t < 1 → us'.getD t default
          = updCtrl sumDyn [one11] [one11] [colVec [0], colVec [0]] [zeroM 1 1]
            (colVec [0]) t ∧
        dus'.getD t default
          = updDu sumDyn [one11] [one11] [colVec [0], colVec [0]] [zeroM 1 1]
            (colVec [0]) t ∧
        xs'.getD t default
          = updState sumDyn [one11] [one11] [colVec [0], colVec [0]] [zeroM 1 1]
            (colVec [0]) (t + 1)) ∧
      (∀ t, 1 ≤ t → us'.getD t default = ([zeroM 1 1] : List Mat).getD t default ∧
        xs'.getD t default
          = ([colVec [0], colVec [0]] : List Mat).getD t default) :=
  updatePhase_records_state_at_t (fun a b _ _ => rfl) ⟨rfl, rfl, rfl⟩
    (by intro v hv; fin_cases hv <;> exact ⟨rfl, rfl, rfl⟩)
    (by intro v hv; fin_cases hv <;> exact ⟨rfl, rfl, rfl⟩)
    (by intro v hv; fin_cases hv <;> exact ⟨rfl, rfl⟩)
    (by intro v hv; fin_cases hv <;> exact ⟨rfl, rfl, rfl⟩)
    le_rfl (by decide) le_rfl le_rfl

/-- Claim C3 (amended): the matrix arithmetic is shape-consistent only for
`control_dim = 1`.  With one control dimension and consistent inputs the
forward pass succeeds with the specification's trajectory and cost (the
`(uᵀR)·u` dot product equals `uᵀRu`), the backward pass agrees with the
specification's `Qu = R·u + Bᵀs` formulas, and no shape assertion can fail
there (the amendment: the backward pass is not total — it may still panic on
a singular `Quu`, see the counterexample).  For every `control_dim ≥ 2` with
at least one timestep, the forward pass, the backward pass and `solve` all
fail their shape assertions. -/
theorem shape_consistent_only_m1 {c : ILQRSolver} {f : Dyn} {target x0 : Mat}
    {xs us : List Mat}
    (hcs : CfgShape c) (hf : DynOK c f)
    (ht1 : target.rows = c.state_dim) (ht2 : target.cols = 1)
    (hx0 : IsVec c.state_dim x0)
    (hxs : ∀ v ∈ xs, IsVec c.state_dim v)
    (hus : ∀ v ∈ us, IsVec c.control_dim v)
    (hlen : xs.length = us.length + 1) (hne : us ≠ []) :
    (c.control_dim = 1 →
      c.forward x0 us target f = .ok (trajSpec f x0 us, lossSpec c f target x0 us) ∧
      c.backward xs us target f = c.backwardSpec xs us target f ∧
      c.backward xs us target f ≠ .error .dimMismatch) ∧
    (2 ≤ c.control_dim →
      c.forward x0 us target f = .error .dimMismatch ∧
      c.backward xs us target f = .error .dimMismatch ∧
      ∀ (T maxI : Nat) (thr : ℚ) (sq : ℚ → ℚ),
        c.solve x0 target f (T + 1) (maxI + 1) thr sq = .error .dimMismatch) := by
  constructor
  · intro hm
    have hus1 : ∀ v ∈ us, IsVec 1 v := by
      rw [← hm]
      exact hus
    exact ⟨forward_eq hcs hm hf ht1 ht2 hx0 hus1,
      backward_eq_spec hcs hm hf ht1 ht2 hxs hus1 hlen,
      backward_no_dim hcs hm hf ht1 ht2 hxs hus1 hlen⟩
  · intro hm2
    refine ⟨?_, backward_mge2 hcs hm2 hf ht1 ht2 hxs hus hlen hne,
      fun T maxI thr sq => solve_mge2 hcs hm2 hf ht1 ht2 hx0⟩
    rcases us with _ | ⟨u0, us'⟩
    · exact absurd rfl hne
    · exact forward_mge2 hcs hm2 hf ht1 ht2 hx0 (hus u0 (List.mem_cons_self _ _))

/-- Claim C3, counterexample: the original claim says the passes are total
for `control_dim = 1`, but with `R = 0` and the no-op dynamics the backward
pass panics on the singular `Quu` — it is not total even in the
shape-consistent regime. -/
theorem shape_consistent_only_m1_cex :
    cRzero.backward [colVec [0], colVec [0]] [zeroM 1 1] (colVec [1])
      (fun a _ => a)
      = .error (RtError.panicked "the matrix Quu is not invertible") := by
  with_unfolding_all decide

/-- Claim C3, witness: the concrete one-control scenario. -/
theorem shape_consistent_only_m1_witness :
    (cUnit.control_dim = 1 →
      cUnit.forward (colVec [0]) [zeroM 1 1] (colVec [1]) sumDyn
        = .ok (trajSpec sumDyn (colVec [0]) [zeroM 1 1],
            lossSpec cUnit sumDyn (colVec [1]) (colVec [0]) [zeroM 1 1]) ∧
      cUnit.backward [colVec [0], colVec [0]] [zeroM 1 1] (colVec [1]) sumDyn
        = cUnit.backwardSpec [colVec [0], colVec [0]] [zeroM 1 1] (colVec [1]) sumDyn ∧
      cUnit.backward [colVec [0], colVec [0]] [zeroM 1 1] (colVec [1]) sumDyn
        ≠ .error .dimMismatch) ∧
    (2 ≤ cUnit.control_dim →
      cUnit.forward (colVec [0]) [zeroM 1 1] (colVec [1]) sumDyn
        = .error .dimMismatch ∧
      cUnit.backward [colVec [0], colVec [0]] [zeroM 1 1] (colVec [1]) sumDyn
        = .error .dimMismatch ∧
      ∀ (T maxI : Nat) (thr : ℚ) (sq : ℚ → ℚ),
        cUnit.solve (colVec [0]) (colVec [1]) sumDyn (T + 1) (maxI + 1) thr sq
          = .error .dimMismatch) :=
  shape_consistent_only_m1 ⟨rfl, rfl, rfl, rfl, rfl, rfl⟩ (fun a b _ _ => rfl)
    rfl rfl ⟨rfl, rfl, rfl⟩
    (by intro v hv; fin_cases hv <;> exact ⟨rfl, rfl, rfl⟩)
    (by intro v hv; fin_cases hv <;> exact ⟨rfl, rfl, rfl⟩)
    rfl (List.cons_ne_nil _ _)

/-- Claim C4: with a one-dimensional control space and dimensionally
consistent inputs, the whole backward pass — which runs `t` from `T−1` down
to `0` starting from `s = Qf·(xs[T]−target)` and `S = Qf` — computes exactly
the specification's step formulas: `backwardSpec` writes
`Qx = Q·(xs[t]−target) + Aᵀs`, `Qu = R·us[t] + Bᵀs`, `Qxx = Q + AᵀSA`,
`Quu = R + BᵀSB`, `Qux = BᵀSA`, `K_t = −Quu⁻¹·Qux`, `d_t = −Quu⁻¹·Qu` and the
stated `s`/`S` updates; the code's only textual deviation, `Qu = R·u + sᵀB`,
is a `1×1` value agreement. -/
theorem backward_matches_spec {c : ILQRSolver} {xs us : List Mat} {target : Mat}
    {f : Dyn} (hcs : CfgShape c) (hm : c.control_dim = 1) (hf : DynOK c f)
    (ht1 : target.rows = c.state_dim) (ht2 : target.cols = 1)
    (hxs : ∀ v ∈ xs, IsVec c.state_dim v) (hus : ∀ v ∈ us, IsVec 1 v)
    (hlen : xs.length = us.length + 1) :
    c.backward xs us target f = c.backwardSpec xs us target f :=
  backward_eq_spec hcs hm hf ht1 ht2 hxs hus hlen

/-- Claim C4, witness: the concrete one-step scenario. -/
theorem backward_matches_spec_witness :
    cUnit.backward [colVec [0], colVec [0]] [zeroM 1 1] (colVec [1]) sumDyn
      = cUnit.backwardSpec [colVec [0], colVec [0]] [zeroM 1 1] (colVec [1])
        sumDyn :=
  backward_matches_spec ⟨rfl, rfl, rfl, rfl, rfl, rfl⟩ rfl (fun a b _ _ => rfl)
    rfl rfl (by intro v hv; fin_cases hv <;> exact ⟨rfl, rfl, rfl⟩)
    (by intro v hv; fin_cases hv <;> exact ⟨rfl, rfl, rfl⟩) rfl

/-- Claim C5 (amended): for a one-dimensional control space and consistent
shapes, the forward pass returns the trajectory `trajSpec` — length `T+1`,
`xs[0] = x0`, `xs[t+1] = f(xs[t], us[t])` — together with the cost
`lossSpec`, the sum over `t` of `(x_{t+1}−target)ᵀQ(x_{t+1}−target) +
u_tᵀRu_t` plus the terminal `(x_T−target)ᵀQf(x_T−target)` (so the state
deviation is penalized post-transition, never at `x0`).  The amendment: the
original claim's "for every control sequence" fails for `control_dim ≥ 2`,
where the pass dies on a shape assertion (see the counterexample). -/
theorem forward_contract {c : ILQRSolver} {f : Dyn} {target x0 : Mat}
    {us : List Mat}
    (hcs : CfgShape c) (hm : c.control_dim = 1) (hf : DynOK c f)
    (ht1 : target.rows = c.state_dim) (ht2 : target.cols = 1)
    (hx0 : IsVec c.state_dim x0) (hus : ∀ v ∈ us, IsVec 1 v) :
    c.forward x0 us target f = .ok (trajSpec f x0 us, lossSpec c f target x0 us) ∧
    (trajSpec f x0 us).length = us.length + 1 ∧
    (trajSpec f x0 us).getD 0 default = x0 ∧
    ∀ t, t < us.length → (trajSpec f x0 us).getD (t + 1) default
      = colVec (f ((trajSpec f x0 us).getD t default).data
          ((us.getD t default)).data) := by
  refine ⟨forward_eq hcs hm hf ht1 ht2 hx0 hus, ?_, rfl,
    fun t ht => trajSpec_getD_succ f us x0 t ht⟩
  show (x0 :: rollout f x0 us).length = us.length + 1
  rw [List.length_cons, length_rollout]

/-- Claim C5, counterexample: with two control dimensions the forward pass
does not return a trajectory and cost at all — `(uᵀR).dot(&u)` compares a
`1×2` row with a `2×1` column and the shape assertion fails. -/
theorem forward_contract_cex :
    cWide.forward (colVec [0]) [zeroM 2 1] (colVec [0]) (fun a _ => a)
      = .error .dimMismatch := by
  with_unfolding_all decide

/-- Claim C5, witness: the concrete scalar scenario. -/
theorem forward_contract_witness :
    cUnit.forward (colVec [0]) [zeroM 1 1] (colVec [1]) sumDyn
      = .ok (trajSpec sumDyn (colVec [0]) [zeroM 1 1],
          lossSpec cUnit sumDyn (colVec [1]) (colVec [0]) [zeroM 1 1]) ∧
    (trajSpec sumDyn (colVec [0]) [zeroM 1 1]).length = 2 ∧
    (trajSpec sumDyn (colVec [0]) [zeroM 1 1]).getD 0 default = colVec [0] ∧
    ∀ t, t < 1 → (trajSpec sumDyn (colVec [0]) [zeroM 1 1]).getD (t + 1) default
      = colVec (sumDyn
          ((trajSpec sumDyn (colVec [0]) [zeroM 1 1]).getD t default).data
          ((([zeroM 1 1] : List Mat).getD t default)).data) :=
  forward_contract ⟨rfl, rfl, rfl, rfl, rfl, rfl⟩ rfl (fun a b _ _ => rfl)
    rfl rfl ⟨rfl, rfl, rfl⟩
    (by intro v hv; fin_cases hv <;> exact ⟨rfl, rfl, rfl⟩)

/-- Claim C6: for every dynamics whose outputs have `state_dim` entries at
the probe points, `jacobians` returns exactly the central-difference
matrices — column `i` of `A` is `(f(x+εe_i, u) − f(x−εe_i, u)) / (2ε)` and
column `i` of `B` is `(f(x, u+εe_i) − f(x, u−εe_i)) / (2ε)` with
`ε = EPSILON = 1e-5` — and the evaluation trace has exactly `2·(n+m)`
dynamics calls. -/
theorem jacobians_central_diff {c : ILQRSolver} {f : Dyn} {x u : List ℚ}
    (hf : DynOK c f) (hx : x.length = c.state_dim) (hu : u.length = c.control_dim) :
    c.jacobians f x u = .ok
      (mkMat c.state_dim c.state_dim (fun r i =>
        ((f (x.set i (x.getD i 0 + EPSILON)) u).getD r 0
          - (f (x.set i (x.getD i 0 - EPSILON)) u).getD r 0) / (2 * EPSILON)),
       mkMat c.state_dim c.control_dim (fun r i =>
        ((f x (u.set i (u.getD i 0 + EPSILON))).getD r 0
          - (f x (u.set i (u.getD i 0 - EPSILON))).getD r 0) / (2 * EPSILON)))
    ∧ (c.jacobiansTrace x u).length = 2 * (c.state_dim + c.control_dim) :=
  ⟨jacobians_eq hf hx hu, jacobiansTrace_length c x u⟩

/-- Claim C6, witness: the scalar dynamics at `x = [0]`, `u = [0]`. -/
theorem jacobians_central_diff_witness :
    cUnit.jacobians sumDyn [0] [0] = .ok
      (mkMat cUnit.state_dim cUnit.state_dim (fun r i =>
        ((sumDyn (([0] : List ℚ).set i (([0] : List ℚ).getD i 0 + EPSILON)) [0]).getD r 0
          - (sumDyn (([0] : List ℚ).set i (([0] : List ℚ).getD i 0 - EPSILON)) [0]).getD r 0)
          / (2 * EPSILON)),
       mkMat cUnit.state_dim cUnit.control_dim (fun r i =>
        ((sumDyn [0] (([0] : List ℚ).set i (([0] : List ℚ).getD i 0 + EPSILON))).getD r 0
          - (sumDyn [0] (([0] : List ℚ).set i (([0] : List ℚ).getD i 0 - EPSILON))).getD r 0)
          / (2 * EPSILON)))
    ∧ (cUnit.jacobiansTrace [0] [0]).length = 2 * (cUnit.state_dim + cUnit.control_dim) :=
  jacobians_central_diff (fun a b _ _ => rfl) rfl rfl

/-- Claim C7: after an iteration's update phase, `solve` computes
`norm = sqrt(Σ_t ‖δu_t‖)` — `iterNorm` applies `sq` (the square-root stand-in)
to the SUM of the per-timestep norms `dvNorm`, not to a stacked vector — and
the loop stops early exactly when `norm < convergence_threshold`: one
unrolling of the loop is the convergence test on the iteration's corrections,
returning after exactly one executed iteration (count `1`) when the test
passes and recursing on the updated controls otherwise. -/
theorem solve_convergence_metric {c : ILQRSolver} {f : Dyn} {x0 target : Mat}
    {T k : Nat} {sq : ℚ → ℚ} {thr : ℚ} {us0 : List Mat}
    {r : List Mat × List Mat × List Mat}
    (h : c.solveIter x0 target f T us0 = .ok r) :
    iterNorm sq r.2.1 = sq ((r.2.1.map (dvNorm sq)).sum) ∧
    c.solveLoop x0 target f T sq thr (k + 1) us0
      = (if iterNorm sq r.2.1 < thr then .ok (r.1, 1)
         else (c.solveLoop x0 target f T sq thr k r.1 >>= fun rest =>
           .ok (rest.1, rest.2 + 1))) := by
  refine ⟨rfl, ?_⟩
  simp only [ILQRSolver.solveLoop]
  rw [h, ok_bind]

/-- Claim C7, witness: the zero scenario, whose single iteration has zero
corrections, so with threshold `1` the loop returns after exactly one
iteration. -/
theorem solve_convergence_metric_witness :
    iterNorm id ([zeroM 1 1] : List Mat)
      = id ((([zeroM 1 1] : List Mat).map (dvNorm id)).sum) ∧
    cUnit.solveLoop (colVec [0]) (colVec [0]) (fun a _ => a) 1 id 1 (0 + 1)
        [zeroM 1 1]
      = (if iterNorm id ([zeroM 1 1] : List Mat) < 1
         then .ok (([zeroM 1 1] : List Mat), 1)
         else (cUnit.solveLoop (colVec [0]) (colVec [0]) (fun a _ => a) 1 id 1 0
             [zeroM 1 1] >>= fun rest => .ok (rest.1, rest.2 + 1))) :=
  @solve_convergence_metric cUnit (fun a _ => a) (colVec [0]) (colVec [0]) 1 0 id 1
    [zeroM 1 1] ([zeroM 1 1], [zeroM 1 1], [zeroM 1 1, zeroM 1 1])
    (by with_unfolding_all decide)

/-- Claim C8 (amended): given a trajectory of length `T+1` and `T` controls,
the backward pass returns `T + 1` feedback gains (each `m × n`) and `T + 1`
feedforward vectors (each `m × 1`) — one MORE than the `T` the original
claim states, because `Ks` and `ds` are allocated with `xs.len()` entries
and the loop only writes indices `0..T-1`, leaving the entry at index `T`
at its zero initialization. -/
theorem backward_gain_count {c : ILQRSolver} {f : Dyn} {target : Mat}
    {xs us Ks ds : List Mat}
    (hcs : CfgShape c) (hus : ∀ v ∈ us, IsVec c.control_dim v)
    (hlen : xs.length = us.length + 1)
    (h : c.backward xs us target f = .ok (Ks, ds)) :
    Ks.length = us.length + 1 ∧ ds.length = us.length + 1 ∧
      (∀ K ∈ Ks, K.rows = c.control_dim ∧ K.cols = c.state_dim) ∧
      (∀ d ∈ ds, d.rows = c.control_dim ∧ d.cols = 1) ∧
      Ks.getD us.length default = zeroM c.control_dim c.state_dim ∧
      ds.getD us.length default = zeroM c.control_dim 1 :=
  backward_lengths hcs hus hlen h

/-- Claim C8, counterexample: a one-timestep problem (`T = 1`): the backward
pass returns two gain matrices and two feedforward vectors, not the claimed
exactly `T = 1` of each. -/
theorem backward_gain_count_cex :
    (cUnit.backward [colVec [0], colVec [0]] [zeroM 1 1] (colVec [1])
        sumDyn).map (fun p => (p.1.length, p.2.length)) = .ok (2, 2)
    ∧ ([zeroM 1 1] : List Mat).length = 1 ∧ (2 : Nat) ≠ 1 := by
  refine ⟨?_, rfl, by decide⟩
  with_unfolding_all decide

/-- Claim C8, witness for the amended statement: the concrete one-timestep
backward pass, whose gain lists have length `2 = T + 1` with the last entry
still zero. -/
theorem backward_gain_count_witness :
    ([Mat.mk 1 1 [-(1/2)], Mat.mk 1 1 [0]] : List Mat).length = 2 ∧
    ([Mat.mk 1 1 [1/2], Mat.mk 1 1 [0]] : List Mat).length = 2 ∧
    (∀ K ∈ ([Mat.mk 1 1 [-(1/2)], Mat.mk 1 1 [0]] : List Mat),
      K.rows = 1 ∧ K.cols = 1) ∧
    (∀ d ∈ ([Mat.mk 1 1 [1/2], Mat.mk 1 1 [0]] : List Mat),
      d.rows = 1 ∧ d.cols = 1) ∧
    ([Mat.mk 1 1 [-(1/2)], Mat.mk 1 1 [0]] : List Mat).getD 1 default
      = zeroM 1 1 ∧
    ([Mat.mk 1 1 [1/2], Mat.mk 1 1 [0]] : List Mat).getD 1 default
      = zeroM 1 1 :=
  @backward_gain_count cUnit sumDyn (colVec [1]) [colVec [0], colVec [0]]
    [zeroM 1 1] [Mat.mk 1 1 [-(1/2)], Mat.mk 1 1 [0]]
    [Mat.mk 1 1 [1/2], Mat.mk 1 1 [0]] ⟨rfl, rfl, rfl, rfl, rfl, rfl⟩
    (by intro v hv; fin_cases hv <;> exact ⟨rfl, rfl, rfl⟩) rfl
    (by with_unfolding_all decide)

/-- Claim C9: whenever `solve` returns a value at all, it is a sequence of
exactly `time_steps` control vectors, each `control_dim × 1` — whether or not
the convergence threshold was met within `max_iterations`; the `Except.ok`
result carries no convergence indication, so exhausting the iteration budget
is indistinguishable from early convergence. -/
theorem solve_returns_T_controls {c : ILQRSolver} {f : Dyn} {x0 target : Mat}
    {T maxIt : Nat} {thr : ℚ} {sq : ℚ → ℚ} {us' : List Mat}
    (h : c.solve x0 target f T maxIt thr sq = .ok us') :
    us'.length = T ∧ ∀ v ∈ us', v.rows = c.control_dim ∧ v.cols = 1 := by
  unfold ILQRSolver.solve at h
  rcases bind_eq_ok.mp h with ⟨p, hp, h⟩
  rw [pure_eq_ok] at h
  have hpu : p.1 = us' := Except.ok.inj h
  rw [← hpu]
  refine solveLoop_us maxIt (List.replicate T (zeroM c.control_dim 1)) p ?_
    (by simp) hp
  intro v hv
  rw [List.eq_of_mem_replicate hv]
  exact ⟨rfl, rfl⟩

/-- Claim C9, witness: the concrete zero scenario returns exactly one
`1 × 1` control. -/
theorem solve_returns_T_controls_witness :
    ([zeroM 1 1] : List Mat).length = 1 ∧
    ∀ v ∈ ([zeroM 1 1] : List Mat), v.rows = 1 ∧ v.cols = 1 :=
  @solve_returns_T_controls cUnit (fun a _ => a) (colVec [0]) (colVec [0]) 1 1 1
    id [zeroM 1 1] (by with_unfolding_all decide)

/-- Claim C10: `solve` initializes the control sequence to all zeros, and
with `x0 = target`, the state-preserving no-op dynamics `f(x, u) = x` and an
invertible `R` (so `Quu = R + BᵀSB = R` is invertible at every backward step,
the control Jacobian `B` being zero), every iteration's corrections are all
zero and the returned control sequence is the all-zero sequence. -/
theorem solve_zero_noop {c : ILQRSolver} {x0 Ri : Mat} {T maxIt : Nat}
    {thr : ℚ} {sq : ℚ → ℚ}
    (hcs : CfgShape c) (hm : c.control_dim = 1) (hRwf : c.R.Wf)
    (hRi : gaussInv c.R = some Ri) (hx0 : IsVec c.state_dim x0) :
    (∃ xs', c.solveIter x0 x0 (fun a _ => a) T
        (List.replicate T (zeroM c.control_dim 1))
      = .ok (List.replicate T (zeroM c.control_dim 1),
          List.replicate T (zeroM c.control_dim 1), xs')) ∧
    c.solve x0 x0 (fun a _ => a) T maxIt thr sq
      = .ok (List.replicate T (zeroM c.control_dim 1)) := by
  refine ⟨solveIter_noop hcs hm hRwf hRi hx0, ?_⟩
  obtain ⟨cnt, hloop⟩ := @solveLoop_noop c x0 Ri T thr sq hcs hm hRwf hRi hx0 maxIt
  unfold ILQRSolver.solve
  dsimp only
  rw [hloop, ok_bind, pure_eq_ok]

/-- Claim C10, witness: the concrete zero scenario with identity costs. -/
theorem solve_zero_noop_witness :
    (∃ xs', cUnit.solveIter (colVec [0]) (colVec [0]) (fun a _ => a) 1
        (List.replicate 1 (zeroM 1 1))
      = .ok (List.replicate 1 (zeroM 1 1), List.replicate 1 (zeroM 1 1), xs')) ∧
    cUnit.solve (colVec [0]) (colVec [0]) (fun a _ => a) 1 1 1 id
      = .ok (List.replicate 1 (zeroM 1 1)) :=
  @solve_zero_noop cUnit (colVec [0]) (Mat.mk 1 1 [1]) 1 1 1 id
    ⟨rfl, rfl, rfl, rfl, rfl, rfl⟩ rfl rfl
    (by with_unfolding_all decide) ⟨rfl, rfl, rfl⟩
